import Mathlib

/-!
Shallow embedding of the rule/fact matching engine of `semantic_browser.py`
(class `PrologEngine` and class `SemanticBrowser`).

Python values stored in facts and patterns are either strings or integers;
a string beginning with `_` acts as a variable.  A Python exception is
modelled by `Option.none`; exhaustion of the explicit recursion fuel in the
query evaluator also yields `none` (the unbounded Python recursion does not
terminate in that situation).
-/

set_option maxHeartbeats 1000000
set_option maxRecDepth 100000

namespace AceCode

/-- A term of the engine: Python `str` or `int`. -/
inductive Term where
  | str (s : String)
  | int (n : Int)
deriving DecidableEq, Repr

/-- Python `s.startswith('_')`: the variable naming convention. -/
def isVarName (s : String) : Bool :=
  match s.data with
  | '_' :: _ => true
  | _ => false

/-- `isinstance(x, str) and x.startswith('_')`: the variable test of
`_try_unify`, returning the variable's name. -/
def varName : Term → Option String
  | .str s => if isVarName s then some s else none
  | .int _ => none

/-- A binding map, keyed by variable name.  Python uses a `dict`; insertion
order is preserved by an association list. -/
abbrev Bindings := List (String × Term)

/-- `v in bindings` / `bindings[v]` lookup. -/
def lookupB (b : Bindings) (v : String) : Option Term :=
  match b.find? (fun q => q.1 == v) with
  | some q => some q.2
  | none => none

/-- One binding step of `_try_unify`: if `v` is already bound to a different
term the unification fails, otherwise `v` is bound to `t`. -/
def bindVar (b : Bindings) (v : String) (t : Term) : Option Bindings :=
  match lookupB b v with
  | some u => if u = t then some b else none
  | none => some (b ++ [(v, t)])

/-- One position of the `_try_unify` scan: the fact-side term is tested for
variable-hood before the pattern-side term; two non-variables must be equal. -/
def unifyStep (b : Bindings) (p f : Term) : Option Bindings :=
  match varName f with
  | some s => bindVar b s p
  | none =>
    match varName p with
    | some s => bindVar b s f
    | none => if p = f then some b else none

/-- The position-wise scan of `_try_unify` (both lists already known to have
equal length). -/
def tryUnifyAux : Bindings → List Term → List Term → Option Bindings
  | b, [], _ => some b
  | b, p :: ps, f :: fs =>
    match unifyStep b p f with
    | some b2 => tryUnifyAux b2 ps fs
    | none => none
  | _, _ :: _, [] => none

/-- `PrologEngine._try_unify(pattern, fact)`: `None` on length mismatch,
otherwise the left-to-right scan. -/
def tryUnify (pattern fact : List Term) : Option Bindings :=
  if pattern.length ≠ fact.length then none
  else tryUnifyAux [] pattern fact

/-- A rule `(head, body)`: head predicate and argument pattern, plus an
ordered conjunction of body calls. -/
structure Rule where
  headPred : String
  headArgs : List Term
  body : List (String × List Term)
deriving DecidableEq, Repr

/-- The fact store: predicate name mapped to the ordered list of argument
tuples.  Python uses a `dict` keyed by predicate; an association list keeps
both the per-predicate insertion order and the key insertion order. -/
abbrev Facts := List (String × List (List Term))

/-- The mutable state of a `PrologEngine` instance. -/
structure Engine where
  facts : Facts
  rules : List Rule
  trace : List String
deriving DecidableEq, Repr

/-- A `PrologEngine` right after `__init__` / `clear()`. -/
def emptyEngine : Engine := ⟨[], [], []⟩

/-- `self.facts[predicate]`, with `[]` when the predicate is absent. -/
def factsFor (fs : Facts) (pred : String) : List (List Term) :=
  match fs.find? (fun q => q.1 == pred) with
  | some q => q.2
  | none => []

/-- Append a tuple to the list of the given predicate, creating the list if
the predicate is absent (`add_fact`'s update of `self.facts`). -/
def addFactTo : Facts → String → List Term → Facts
  | [], pred, args => [(pred, [args])]
  | (q, ts) :: rest, pred, args =>
    if q = pred then (q, ts ++ [args]) :: rest
    else (q, ts) :: addFactTo rest pred args

/-- Python `str(term)`. -/
def termStr : Term → String
  | .str s => s
  | .int n => toString n

/-- The `predicate(arg, arg, ...)` rendering used by trace lines. -/
def callStr (pred : String) (args : List Term) : String :=
  pred ++ "(" ++ String.intercalate ", " (args.map termStr) ++ ")"

/-- `PrologEngine.add_fact`. -/
def addFact (e : Engine) (pred : String) (args : List Term) : Engine :=
  { e with facts := addFactTo e.facts pred args,
           trace := e.trace ++ ["Added fact: " ++ callStr pred args] }

/-- `PrologEngine.add_rule`. -/
def addRule (e : Engine) (r : Rule) : Engine :=
  { e with rules := e.rules ++ [r],
           trace := e.trace ++
             ["Added rule: " ++ callStr r.headPred r.headArgs ++ " :- " ++
              String.intercalate " AND " (r.body.map (fun c => callStr c.1 c.2))] }

/-- The evaluation moment's current date (`date.today()` in the source;
the engine reads the real wall clock, modelled as an explicit parameter). -/
structure Date where
  y : Int
  m : Int
  d : Int
deriving DecidableEq, Repr

/-- Scan a fact list for the first tuple whose element `0` equals `person`
(`fact_args[0] == person`).  `none` models the `IndexError` raised when an
empty tuple is scanned; `some none` means no tuple matched. -/
def findWithHead (person : Term) : List (List Term) → Option (Option (List Term))
  | [] => some none
  | [] :: _ => none
  | (a :: rest) :: ts =>
    if a = person then some (some (a :: rest)) else findWithHead person ts

/-- `PrologEngine._calculate_age`: the first `birthdate` fact for `person`
gives `(year, month, day)` as elements `1:4`; with no such fact the age is
`0`.  `none` models the exceptions raised on malformed tuples. -/
def calculateAge (fs : Facts) (today : Date) (person : Term) : Option Int :=
  match findWithHead person (factsFor fs "birthdate") with
  | none => none
  | some none => some 0
  | some (some t) =>
    match t with
    | _ :: Term.int yy :: Term.int mm :: Term.int dd :: _ =>
      some (if today.m < mm ∨ (today.m = mm ∧ today.d < dd)
            then today.y - yy - 1 else today.y - yy)
    | _ => none

/-- Python `a >= b` on stored values: defined for `int >= int` and
`str >= str`; a mixed comparison raises `TypeError` (modelled `none`). -/
def termGe : Term → Term → Option Bool
  | .int a, .int b => some (decide (b ≤ a))
  | .str a, .str b => some (decide (¬ a < b))
  | _, _ => none

/-- The `age_less_than` built-in of `_evaluate_body_with_bindings`:
succeeds iff the computed age is strictly below the limit. -/
def ageLessThanCall (fs : Facts) (today : Date) (person lim : Term) : Option Bool :=
  match calculateAge fs today person with
  | none => none
  | some a =>
    match lim with
    | .int l => some (decide (a < l))
    | .str _ => none

/-- The `income_less_than` built-in: the first `yearly_income` fact for
`person` decides; no fact means failure (`some false`, not an error). -/
def incomeLessThanCall (fs : Facts) (person lim : Term) : Option Bool :=
  match findWithHead person (factsFor fs "yearly_income") with
  | none => none
  | some none => some false
  | some (some t) =>
    match t.get? 1 with
    | none => none
    | some inc =>
      match termGe inc lim with
      | none => none
      | some ge => some (!ge)

/-- The scan of `has_child` tuples inside the `has_child_under_18` built-in:
`for parent, child in self.facts['has_child']` (a tuple that is not a pair
raises, modelled `none`), succeeding at the first child of `person` whose
computed age is below 18. -/
def scanChildren (fs : Facts) (today : Date) (person : Term) :
    List (List Term) → Option Bool
  | [] => some false
  | [parent, child] :: rest =>
    if parent = person then
      match calculateAge fs today child with
      | none => none
      | some a =>
        if a < 18 then some true else scanChildren fs today person rest
    else scanChildren fs today person rest
  | _ :: _ => none

/-- The `has_child_under_18` built-in (an absent `has_child` predicate and an
exhausted scan both yield failure in the source). -/
def hasChildUnder18Call (fs : Facts) (today : Date) (person : Term) : Option Bool :=
  scanChildren fs today person (factsFor fs "has_child")

/-- Argument substitution of `_evaluate_body_with_bindings`: a variable with
a binding is replaced, anything else passes through unchanged. -/
def substArg (b : Bindings) (t : Term) : Term :=
  match varName t with
  | some s =>
    match lookupB b s with
    | some u => u
    | none => t
  | none => t

/-- `PrologEngine._evaluate_body_with_bindings`, parameterised by the
recursive query function `qf` (which threads the engine state).  The result
is the engine with its grown trace and `some b` for an ordinary boolean
outcome, `none` for a raised exception. -/
def evalBodyWith (today : Date)
    (qf : Engine → String → List Term → Engine × Option (List Bindings)) :
    Engine → List (String × List Term) → Bindings → Engine × Option Bool
  | e, [], _ => (e, some true)
  | e, (pred, args) :: rest, bnd =>
    let sargs := args.map (substArg bnd)
    if pred = "age_less_than" then
      match sargs with
      | [person, lim] =>
        match ageLessThanCall e.facts today person lim with
        | none => (e, none)
        | some false => (e, some false)
        | some true => evalBodyWith today qf e rest bnd
      | _ => (e, none)
    else if pred = "income_less_than" then
      match sargs with
      | [person, lim] =>
        match incomeLessThanCall e.facts person lim with
        | none => (e, none)
        | some false => (e, some false)
        | some true => evalBodyWith today qf e rest bnd
      | _ => (e, none)
    else if pred = "has_child_under_18" then
      match sargs with
      | person :: _ =>
        match hasChildUnder18Call e.facts today person with
        | none => (e, none)
        | some false => (e, some false)
        | some true => evalBodyWith today qf e rest bnd
      | [] => (e, none)
    else
      match qf e pred sargs with
      | (e2, none) => (e2, none)
      | (e2, some rs) =>
        if rs = [] then (e2, some false) else evalBodyWith today qf e2 rest bnd

/-- The fact loop of `PrologEngine.query`: every stored tuple is tried and
each successful unification appends its bindings (no early exit). -/
def factMatches (args : List Term) : List (List Term) → List Bindings → List Bindings
  | [], acc => acc
  | t :: ts, acc =>
    match tryUnify args t with
    | some b => factMatches args ts (acc ++ [b])
    | none => factMatches args ts acc

/-- The rule loop of `PrologEngine.query`: rules whose head predicate matches
are head-unified and their bodies evaluated; successful ones append the head
bindings after the fact results. -/
def ruleLoopWith (today : Date)
    (qf : Engine → String → List Term → Engine × Option (List Bindings))
    (pred : String) (args : List Term) :
    Engine → List Rule → List Bindings → Engine × Option (List Bindings)
  | e, [], acc => (e, some acc)
  | e, r :: rest, acc =>
    if r.headPred = pred then
      match tryUnify args r.headArgs with
      | some bnd =>
        match evalBodyWith today qf e r.body bnd with
        | (e2, none) => (e2, none)
        | (e2, some true) => ruleLoopWith today qf pred args e2 rest (acc ++ [bnd])
        | (e2, some false) => ruleLoopWith today qf pred args e2 rest acc
      | none => ruleLoopWith today qf pred args e rest acc
    else ruleLoopWith today qf pred args e rest acc

/-- `PrologEngine.query`, with explicit recursion fuel: facts first, then
rules.  Fuel `0` models the non-termination of unbounded recursive rules. -/
def queryF (today : Date) : Nat → Engine → String → List Term →
    Engine × Option (List Bindings)
  | 0, e, _, _ => (e, none)
  | fuel + 1, e, pred, args =>
    let e1 : Engine := { e with trace := e.trace ++ ["Query: " ++ callStr pred args] }
    ruleLoopWith today (queryF today fuel) pred args e1 e1.rules
      (factMatches args (factsFor e1.facts pred) [])

/-! ### String handling for `SemanticBrowser`

The ACE fact parser works with Python string operations (`in`, `split`,
`strip`, `lower`, `re.search`).  They are modelled on `List Char`. -/

/-- Python `\w` (ASCII range): letters, digits, underscore. -/
def isWordChar (c : Char) : Bool := c.isAlphanum || c == '_'

/-- Python `needle in hay` on strings. -/
def hasSub (hay needle : List Char) : Bool :=
  match hay with
  | [] => needle.isEmpty
  | c :: cs => needle.isPrefixOf (c :: cs) || hasSub cs needle

/-- Python `str.strip(chars)` / `str.strip()`: drop matching characters from
both ends. -/
def dropAround (p : Char → Bool) (cs : List Char) : List Char :=
  ((cs.dropWhile p).reverse.dropWhile p).reverse

/-- Python `str.split(sep)` for a non-empty separator `s0 :: srest`,
accumulating the current segment in `acc`.  The first argument is fuel,
always at least the length of the remaining text, so its `0` equation is
unreachable; it only makes the recursion structural. -/
def splitOnSubAux (s0 : Char) (srest : List Char) :
    Nat → List Char → List Char → List (List Char)
  | 0, acc, rest => [acc ++ rest]
  | _ + 1, acc, [] => [acc]
  | n + 1, acc, c :: cs =>
    if (s0 :: srest).isPrefixOf (c :: cs) then
      acc :: splitOnSubAux s0 srest n [] (cs.drop srest.length)
    else
      splitOnSubAux s0 srest n (acc ++ [c]) cs

def splitOnSub (s0 : Char) (srest : List Char) (cs : List Char) : List (List Char) :=
  splitOnSubAux s0 srest cs.length [] cs

/-- Python `str.split()` (no argument): split on whitespace runs, producing
no empty segments. -/
def splitWsAux (cur : List Char) : List Char → List (List Char)
  | [] => if cur.isEmpty then [] else [cur]
  | c :: cs =>
    if c.isWhitespace then
      if cur.isEmpty then splitWsAux [] cs else cur :: splitWsAux [] cs
    else splitWsAux (cur ++ [c]) cs

def splitWs (cs : List Char) : List (List Char) := splitWsAux [] cs

/-- Python `int()` on a run of ASCII digits. -/
def digitsToNat (ds : List Char) : Nat :=
  ds.foldl (fun n c => n * 10 + (c.toNat - 48)) 0

/-- Python `str.lower()` (ASCII). -/
def lowerStr (s : String) : String := String.mk (s.toList.map Char.toLower)

/-- `re.search` for the patterns of `_parse_ace_fact`, all of the shape
`(\w+) LITERAL ...`: scan for the leftmost position whose maximal run of
word characters is followed by `lit` and by a tail accepted by `tailM`.  Greedy
`\w+` cannot backtrack into `lit` (which starts with a space), so group 1 is
always the maximal run. -/
def searchPat {α : Type} (lit : List Char) (tailM : List Char → Option α) :
    List Char → Option (String × α)
  | [] => none
  | c :: cs =>
    if isWordChar c then
      let w := (c :: cs).takeWhile isWordChar
      let rest := (c :: cs).dropWhile isWordChar
      match (if lit.isPrefixOf rest then tailM (rest.drop lit.length) else none) with
      | some v => some (String.mk w, v)
      | none => searchPat lit tailM cs
    else searchPat lit tailM cs

/-- Tail `(\d+) euros` of the `yearly_income` pattern. -/
def incomeTail (cs : List Char) : Option Int :=
  let ds := cs.takeWhile Char.isDigit
  let rest := cs.dropWhile Char.isDigit
  if ds.isEmpty then none
  else if (" euros".toList).isPrefixOf rest then some (digitsToNat ds)
  else none

/-- Tail `(\w+)` of the `tax_residence` and `has_child` patterns. -/
def wordTail (cs : List Char) : Option String :=
  let w := cs.takeWhile isWordChar
  if w.isEmpty then none else some (String.mk w)

/-- Tail `(\d{4})-(\d{2})-(\d{2})` of the `birthdate` pattern. -/
def birthdateTail : List Char → Option (Int × Int × Int)
  | c1 :: c2 :: c3 :: c4 :: '-' :: c5 :: c6 :: '-' :: c7 :: c8 :: _ =>
    if ([c1, c2, c3, c4, c5, c6, c7, c8].all Char.isDigit) then
      some (digitsToNat [c1, c2, c3, c4], digitsToNat [c5, c6], digitsToNat [c7, c8])
    else none
  | _ => none

/-- `SemanticBrowser._parse_ace_fact`: strip periods, then run the
`if " is a " in ... elif ...` chain; a line matching no shape (or whose
regex fails despite the substring test) is silently ignored. -/
def parseAceFact (e : Engine) (line : String) : Engine :=
  let f : List Char := dropAround (fun c => c == '.') line.toList
  if hasSub f (" is a ".toList) then
    match splitOnSub ' ' ("is a ".toList) f with
    | p0 :: p1 :: _ => addFact e (String.mk p1) [Term.str (String.mk p0)]
    | _ => e
  else if hasSub f (" has a yearly_income of ".toList) then
    match searchPat (" has a yearly_income of ".toList) incomeTail f with
    | some (p, n) => addFact e "yearly_income" [Term.str p, Term.int n]
    | none => e
  else if hasSub f (" has tax_residence in ".toList) then
    match searchPat (" has tax_residence in ".toList) wordTail f with
    | some (p, cty) => addFact e "tax_residence" [Term.str p, Term.str (lowerStr cty)]
    | none => e
  else if hasSub f (" has child ".toList) then
    match searchPat (" has child ".toList) wordTail f with
    | some (p, cld) => addFact e "has_child" [Term.str p, Term.str cld]
    | none => e
  else if hasSub f (" has a birthdate of ".toList) then
    match searchPat (" has a birthdate of ".toList) birthdateTail f with
    | some (p, (yy, mm, dd)) =>
      addFact e "birthdate" [Term.str p, Term.int yy, Term.int mm, Term.int dd]
    | none => e
  else e

/-- The custom-facts loading loop of `parse_ace_rules_with_custom_facts`:
split on newlines, strip, skip blank lines, parse each line. -/
def loadFactsText (e : Engine) (txt : String) : Engine :=
  ((splitOnSub '\n' [] txt.toList).map (dropAround Char.isWhitespace)).foldl
    (fun acc l => if l.isEmpty then acc else parseAceFact acc (String.mk l)) e

/-- The hardcoded rule of `_add_kindergeld_rules`. -/
def kindergeldRule : Rule :=
  ⟨"eligible_for_kindergeld", [Term.str "_person"],
   [("person", [Term.str "_person"]),
    ("has_child", [Term.str "_person", Term.str "_child"]),
    ("income_less_than", [Term.str "_person", Term.int 68000]),
    ("has_child_under_18", [Term.str "_person"]),
    ("tax_residence", [Term.str "_person", Term.str "germany"])]⟩

/-- The hardcoded rule of `_add_tax_relief_rules`. -/
def taxReliefRule : Rule :=
  ⟨"eligible_for_low_income_tax_relief", [Term.str "_person"],
   [("person", [Term.str "_person"]),
    ("income_less_than", [Term.str "_person", Term.int 30000]),
    ("tax_residence", [Term.str "_person", Term.str "germany"])]⟩

/-- The hardcoded rule of `_add_student_support_rules`. -/
def studentSupportRule : Rule :=
  ⟨"eligible_for_student_support", [Term.str "_person"],
   [("student", [Term.str "_person"]),
    ("age_less_than", [Term.str "_person", Term.int 25])]⟩

/-- The keyword-triggered rule activation of
`parse_ace_rules_with_custom_facts` (lines checking the rule text). -/
def activateRules (e : Engine) (rulesText : String) : Engine :=
  let lower := rulesText.toList.map Char.toLower
  let e1 := if hasSub lower ("kindergeld".toList)
               || hasSub rulesText.toList ("If a person has children".toList)
            then addRule e kindergeldRule else e
  let e2 := if hasSub lower ("tax_relief".toList)
               || hasSub lower ("low_income_tax_relief".toList)
            then addRule e1 taxReliefRule else e1
  if hasSub lower ("student_support".toList) then addRule e2 studentSupportRule else e2

/-! ### `SemanticBrowser.execute_query` -/

/-- Fuel for the top-level query calls.  The activatable rules recurse at
most two query levels deep, so this bound is never reached on reachable
knowledge bases. -/
def QFUEL : Nat := 1000

/-- The success payload of `execute_query`. -/
structure OkResult where
  results : List (List (String × String))
  answer : String
  trace : List String
  factsCount : Nat
  rulesCount : Nat
deriving DecidableEq, Repr

/-- Outcome of `execute_query`: the success dict, or the failure dict (whose
error-message string is not modelled, only the partial trace). -/
inductive EvalOutcome where
  | ok : OkResult → EvalOutcome
  | err : List String → EvalOutcome
deriving DecidableEq, Repr

/-- The `for (person,) in persons` loop of the `who ... kindergeld` branch:
collect the persons with a non-empty `eligible_for_kindergeld` query result;
unpacking a tuple that is not a 1-tuple raises. -/
def whoKgLoop (today : Date) : Engine → List (List Term) → List Term →
    Engine × Option (List Term)
  | e, [], acc => (e, some acc)
  | e, [p] :: rest, acc =>
    match queryF today QFUEL e "eligible_for_kindergeld" [p] with
    | (e2, none) => (e2, none)
    | (e2, some rs) => whoKgLoop today e2 rest (if rs = [] then acc else acc ++ [p])
  | e, _ :: _, _ => (e, none)

/-- `list(set(parent for parent, child in ...))` of the `who ... children`
branch.  Python's set iteration order is unspecified; it is modelled as
first-occurrence order.  Unpacking a tuple that is not a pair raises. -/
def collectParents : List Term → List (List Term) → Option (List Term)
  | acc, [] => some acc
  | acc, [p, _c] :: rest =>
    collectParents (if acc.contains p then acc else acc ++ [p]) rest
  | _, _ :: _ => none

def fallbackMsg : String :=
  "I couldn't parse that query. Please try one of the example queries."

/-- `sum(len(facts) for facts in self.facts.values())`. -/
def sumFactsCount (fs : Facts) : Nat := (fs.map (fun q => q.2.length)).sum

/-- The `"is "` branch of `execute_query`: only the `kindergeld` and
`tax_relief` benefits are dispatched; any other eligibility question leaves
`answer` empty. -/
def isBranch (today : Date) (e1 : Engine) (ql : List Char) (person : String) :
    Engine × Option (List (List (String × String)) × String) :=
  if hasSub ql ("eligible".toList) then
    if hasSub ql ("kindergeld".toList) then
      match queryF today QFUEL e1 "eligible_for_kindergeld" [Term.str person] with
      | (e2, none) => (e2, none)
      | (e2, some rs) =>
        if rs = [] then
          (e2, some ([], "No, " ++ person ++ " is not eligible for Kindergeld."))
        else
          (e2, some ([[("result", "eligible"), ("person", person), ("benefit", "Kindergeld")]],
                     "Yes, " ++ person ++ " is eligible for Kindergeld."))
    else if hasSub ql ("tax_relief".toList) then
      match queryF today QFUEL e1 "eligible_for_low_income_tax_relief" [Term.str person] with
      | (e2, none) => (e2, none)
      | (e2, some rs) =>
        if rs = [] then
          (e2, some ([], "No, " ++ person ++ " is not eligible for low income tax relief."))
        else
          (e2, some ([], "Yes, " ++ person ++ " is eligible for low income tax relief."))
    else (e1, some ([], ""))
  else (e1, some ([], ""))

/-- The `"who "` branch of `execute_query`. -/
def whoBranch (today : Date) (e1 : Engine) (ql : List Char) :
    Engine × Option (List (List (String × String)) × String) :=
  if hasSub ql ("eligible".toList) && hasSub ql ("kindergeld".toList) then
    match whoKgLoop today e1 (factsFor e1.facts "person") [] with
    | (e2, none) => (e2, none)
    | (e2, some elig) =>
      if elig = [] then (e2, some ([], "No one is eligible for Kindergeld."))
      else
        (e2, some (elig.map (fun p => [("person", termStr p), ("benefit", "Kindergeld")]),
                   "Eligible for Kindergeld: " ++ String.intercalate ", " (elig.map termStr)))
  else if hasSub ql ("children".toList) then
    match e1.facts.find? (fun q => q.1 == "has_child") with
    | none => (e1, some ([], ""))
    | some q =>
      match collectParents [] q.2 with
      | none => (e1, none)
      | some ps =>
        if ps = [] then (e1, some ([], "No one has children."))
        else
          (e1, some (ps.map (fun p => [("person", termStr p), ("has", "children")]),
                     "People with children: " ++ String.intercalate ", " (ps.map termStr)))
  else (e1, some ([], ""))

/-- `query.lower().strip('?').strip()`: the query normalisation of
`execute_query`. -/
def normQuery (q : String) : List Char :=
  dropAround Char.isWhitespace
    (dropAround (fun c => c == '?') (q.toList.map Char.toLower))

/-- `SemanticBrowser.execute_query(ace_rules, query, custom_facts)` for a
non-blank `custom_facts` text (a blank text makes the source load facts from
its SQLite database, a collaborator outside the core; that path is the
`none` case here).  The result `EvalOutcome.err` corresponds to the caught
exception path.  `query_parts[1]` is only read under the guard
`len(query_parts) >= 2`, so the default of `getD` is unreachable. -/
def executeQuery (today : Date) (rulesText queryText factsText : String) :
    Option EvalOutcome :=
  if (dropAround Char.isWhitespace factsText.toList).isEmpty then none
  else
    let e1 := activateRules (loadFactsText emptyEngine factsText) rulesText
    let ql := normQuery queryText
    let parts := splitWs ql
    let step :=
      if ("is ".toList).isPrefixOf ql ∧ 2 ≤ parts.length then
        isBranch today e1 ql (String.mk (parts.getD 1 []))
      else if ("who ".toList).isPrefixOf ql then whoBranch today e1 ql
      else (e1, some ([], ""))
    match step with
    | (e2, none) => some (EvalOutcome.err e2.trace)
    | (e2, some (rows, ans)) =>
      some (EvalOutcome.ok ⟨rows, if ans = "" then fallbackMsg else ans,
            e2.trace, sumFactsCount e2.facts, e2.rules.length⟩)

/-- Projection: the `answer` of a successful `execute_query` outcome. -/
def outcomeAnswer : Option EvalOutcome → Option String
  | some (.ok r) => some r.answer
  | _ => none

/-- Projection: the `results` list of a successful `execute_query` outcome. -/
def outcomeRows : Option EvalOutcome → Option (List (List (String × String)))
  | some (.ok r) => some r.results
  | _ => none

/-! ### Lemmas about the unifier -/

lemma lookupB_append_single (b : Bindings) (v s : String) (t : Term) (h : ¬ v = s) :
    lookupB (b ++ [(v, t)]) s = lookupB b s := by
  unfold lookupB
  rw [List.find?_append]
  cases hb : b.find? (fun q => q.1 == s) with
  | some q => rfl
  | none =>
    have : (v == s) = false := by simpa using h
    simp [List.find?_cons, this, Option.or]

lemma varName_str_of_isVar {n : String} (hn : isVarName n = true) :
    varName (Term.str n) = some n := by
  simp [varName, hn]

/-- Ground-against-ground unification is equality testing that never touches
the binding map. -/
lemma tryUnifyAux_ground (p : List Term) :
    ∀ (f : List Term) (b : Bindings), p.length = f.length →
      (∀ t ∈ p, varName t = none) → (∀ t ∈ f, varName t = none) →
      tryUnifyAux b p f = if p = f then some b else none := by
  induction p with
  | nil =>
    intro f b hlen _ _
    cases f with
    | nil => simp [tryUnifyAux]
    | cons g gs => simp at hlen
  | cons t ts ih =>
    intro f b hlen hp hf
    cases f with
    | nil => simp at hlen
    | cons g gs =>
      have ht : varName t = none := hp t (by simp)
      have hg : varName g = none := hf g (by simp)
      have hstep : unifyStep b t g = if t = g then some b else none := by
        simp [unifyStep, ht, hg]
      by_cases heq : t = g
      · subst heq
        rw [show tryUnifyAux b (t :: ts) (t :: gs)
              = tryUnifyAux b ts gs by
            simp [tryUnifyAux, hstep]]
        rw [ih gs b (by simpa using hlen) (fun u hu => hp u (by simp [hu]))
              (fun u hu => hf u (by simp [hu]))]
        by_cases h2 : ts = gs <;> simp [h2]
      · simp [tryUnifyAux, hstep, heq]

/-- An all-variable pattern with pairwise distinct variable names binds each
variable to the term at its position, in either argument order. -/
lemma tryUnifyAux_allVars (F : List Term) :
    ∀ (names : List String) (b : Bindings),
      names.length = F.length →
      (∀ s ∈ names, isVarName s = true) →
      names.Nodup →
      (∀ t ∈ F, varName t = none) →
      (∀ s ∈ names, lookupB b s = none) →
      tryUnifyAux b (names.map Term.str) F = some (b ++ names.zip F)
      ∧ tryUnifyAux b F (names.map Term.str) = some (b ++ names.zip F) := by
  induction F with
  | nil =>
    intro names b hlen _ _ _ _
    cases names with
    | nil => simp [tryUnifyAux]
    | cons n ns => simp at hlen
  | cons f fs ih =>
    intro names b hlen hsw hnd hg hb
    cases names with
    | nil => simp at hlen
    | cons n ns =>
      have hn : isVarName n = true := hsw n (by simp)
      have hf : varName f = none := hg f (by simp)
      have hlook : lookupB b n = none := hb n (by simp)
      have hstep1 : unifyStep b (Term.str n) f = some (b ++ [(n, f)]) := by
        simp [unifyStep, hf, varName_str_of_isVar hn, bindVar, hlook]
      have hstep2 : unifyStep b f (Term.str n) = some (b ++ [(n, f)]) := by
        simp [unifyStep, varName_str_of_isVar hn, bindVar, hlook]
      have hnd2 : ns.Nodup := (List.nodup_cons.mp hnd).2
      have hnin : n ∉ ns := (List.nodup_cons.mp hnd).1
      have hrest := ih ns (b ++ [(n, f)]) (by simpa using hlen)
        (fun s hs => hsw s (by simp [hs])) hnd2
        (fun u hu => hg u (by simp [hu]))
        (fun s hs => by
          rw [lookupB_append_single b n s f (fun hns => hnin (hns ▸ hs))]
          exact hb s (by simp [hs]))
      constructor
      · simp only [List.map_cons]
        rw [show tryUnifyAux b (Term.str n :: List.map Term.str ns) (f :: fs)
              = tryUnifyAux (b ++ [(n, f)]) (List.map Term.str ns) fs by
            simp [tryUnifyAux, hstep1]]
        rw [hrest.1]
        simp [List.zip_cons_cons, List.append_assoc]
      · simp only [List.map_cons]
        rw [show tryUnifyAux b (f :: fs) (Term.str n :: List.map Term.str ns)
              = tryUnifyAux (b ++ [(n, f)]) fs (List.map Term.str ns) by
            simp [tryUnifyAux, hstep2]]
        rw [hrest.2]
        simp [List.zip_cons_cons, List.append_assoc]

/-- **C4** (amended: in the all-variable case the variables must be pairwise
distinct).  `_try_unify` fails (returns `None`, not an empty map) when the
lengths differ; for ground tuples on both sides it succeeds, with empty
accumulated bindings, exactly when the tuples are equal; the fact side is
checked for variable-hood before the pattern side; and for a ground tuple
`F` and an equally long all-variable pattern with pairwise distinct
variables, unification binds every variable to the element at its position
and swapping the argument roles yields the same binding content. -/
theorem c4_unify_amended :
    (∀ pattern fact : List Term, pattern.length ≠ fact.length →
      tryUnify pattern fact = none)
    ∧ (∀ p f : List Term, p.length = f.length →
        (∀ t ∈ p, varName t = none) → (∀ t ∈ f, varName t = none) →
        (tryUnify p f = some [] ↔ p = f))
    ∧ tryUnify [Term.str "_x"] [Term.str "_y"] = some [("_y", Term.str "_x")]
    ∧ (∀ (names : List String) (F : List Term),
        (∀ s ∈ names, isVarName s = true) → names.Nodup →
        names.length = F.length → (∀ t ∈ F, varName t = none) →
        tryUnify (names.map Term.str) F = some (names.zip F)
        ∧ tryUnify F (names.map Term.str) = some (names.zip F)) := by
  refine ⟨?_, ?_, by decide, ?_⟩
  · intro pattern fact hlen
    simp [tryUnify, hlen]
  · intro p f hlen hp hf
    rw [tryUnify, if_neg (by simp [hlen]), tryUnifyAux_ground p f [] hlen hp hf]
    by_cases h : p = f <;> simp [h]
  · intro names F hsw hnd hlen hg
    have h := tryUnifyAux_allVars F names [] hlen hsw hnd hg (fun s _ => rfl)
    constructor
    · rw [tryUnify, if_neg (by simp [hlen]), h.1]; simp
    · rw [tryUnify, if_neg (by simp [hlen]), h.2]; simp

/-- **C4** counterexample: for the ground fact tuple `("a", "b")` and the
equally long all-variable pattern `("_x", "_x")` (a repeated variable), the
claimed positional binding does not happen — `_try_unify` fails, because the
second position finds `"_x"` already bound to a different term. -/
theorem c4_counterexample :
    varName (Term.str "a") = none ∧ varName (Term.str "b") = none
    ∧ isVarName "_x" = true
    ∧ ([Term.str "_x", Term.str "_x"]).length = ([Term.str "a", Term.str "b"]).length
    ∧ tryUnify [Term.str "_x", Term.str "_x"] [Term.str "a", Term.str "b"] = none := by
  refine ⟨by decide, by decide, by decide, by decide, by decide⟩

/-- **C4** witness: the amended statement applied at concrete inputs. -/
theorem c4_witness :
    tryUnify [Term.str "a"] [Term.str "a", Term.str "b"] = none
    ∧ (tryUnify [Term.str "a", Term.int 3] [Term.str "a", Term.int 3] = some []
       ↔ ([Term.str "a", Term.int 3] : List Term) = [Term.str "a", Term.int 3])
    ∧ tryUnify [Term.str "_x"] [Term.str "_y"] = some [("_y", Term.str "_x")]
    ∧ tryUnify [Term.str "_p", Term.str "_q"] [Term.str "a", Term.int 3]
        = some [("_p", Term.str "a"), ("_q", Term.int 3)] := by
  refine ⟨c4_unify_amended.1 _ _ (by decide),
          c4_unify_amended.2.1 _ _ (by decide) (by decide) (by decide),
          c4_unify_amended.2.2.1, ?_⟩
  exact (c4_unify_amended.2.2.2 ["_p", "_q"] [Term.str "a", Term.int 3]
    (by decide) (by decide) (by decide) (by decide)).1

/-! ### The query evaluator reads, but never writes, facts and rules

`query` and `_evaluate_body_with_bindings` mutate only the execution trace.
`EquivE` relates engine states that agree on facts and rules. -/

/-- Engines with the same fact store and rule base (the traces may differ). -/
def EquivE (e e' : Engine) : Prop := e.facts = e'.facts ∧ e.rules = e'.rules

lemma equivE_refl (e : Engine) : EquivE e e := ⟨rfl, rfl⟩

lemma equivE_symm {a b : Engine} (h : EquivE a b) : EquivE b a := ⟨h.1.symm, h.2.symm⟩

lemma equivE_trans {a b c : Engine} (h1 : EquivE a b) (h2 : EquivE b c) : EquivE a c :=
  ⟨h1.1.trans h2.1, h1.2.trans h2.2⟩

/-- Body evaluation preserves facts and rules whenever the recursive query
function does. -/
lemma evalBodyWith_pres (today : Date)
    (qf : Engine → String → List Term → Engine × Option (List Bindings))
    (hq : ∀ e p a, EquivE (qf e p a).1 e) :
    ∀ (body : List (String × List Term)) (e : Engine) (bnd : Bindings),
      EquivE (evalBodyWith today qf e body bnd).1 e := by
  intro body
  induction body with
  | nil => intro e bnd; exact equivE_refl e
  | cons c rest ih =>
    intro e bnd
    obtain ⟨pred, args⟩ := c
    simp only [evalBodyWith]
    split
    · split
      · split
        · exact equivE_refl e
        · exact equivE_refl e
        · exact ih e bnd
      · exact equivE_refl e
    · split
      · split
        · split
          · exact equivE_refl e
          · exact equivE_refl e
          · exact ih e bnd
        · exact equivE_refl e
      · split
        · split
          · split
            · exact equivE_refl e
            · exact equivE_refl e
            · exact ih e bnd
          · exact equivE_refl e
        · split
          · next e2 heq =>
            have := hq e pred (args.map (substArg bnd))
            rw [heq] at this
            exact this
          · next e2 rs heq =>
            have h2 : EquivE e2 e := by
              have := hq e pred (args.map (substArg bnd))
              rw [heq] at this
              exact this
            split
            · exact h2
            · exact equivE_trans (ih e2 bnd) h2

/-- The rule loop preserves facts and rules whenever the recursive query
function does. -/
lemma ruleLoopWith_pres (today : Date)
    (qf : Engine → String → List Term → Engine × Option (List Bindings))
    (hq : ∀ e p a, EquivE (qf e p a).1 e) (pred : String) (args : List Term) :
    ∀ (rs : List Rule) (e : Engine) (acc : List Bindings),
      EquivE (ruleLoopWith today qf pred args e rs acc).1 e := by
  intro rs
  induction rs with
  | nil => intro e acc; exact equivE_refl e
  | cons r rest ih =>
    intro e acc
    simp only [ruleLoopWith]
    split
    · split
      · next bnd hbnd =>
        split
        · next e2 heq =>
          have h2 := evalBodyWith_pres today qf hq r.body e bnd
          rw [heq] at h2
          exact h2
        · next e2 heq =>
          have h2 : EquivE e2 e := by
            have h3 := evalBodyWith_pres today qf hq r.body e bnd
            rw [heq] at h3
            exact h3
          exact equivE_trans (ih e2 _) h2
        · next e2 heq =>
          have h2 : EquivE e2 e := by
            have h3 := evalBodyWith_pres today qf hq r.body e bnd
            rw [heq] at h3
            exact h3
          exact equivE_trans (ih e2 _) h2
      · exact ih e acc
    · exact ih e acc

/-- `PrologEngine.query` mutates only the execution trace: facts and rules
are unchanged, at every fuel level. -/
lemma queryF_pres (today : Date) :
    ∀ (n : Nat) (e : Engine) (p : String) (a : List Term),
      EquivE (queryF today n e p a).1 e := by
  intro n
  induction n with
  | zero => intro e p a; exact equivE_refl e
  | succ m ih =>
    intro e p a
    simp only [queryF]
    exact equivE_trans
      (ruleLoopWith_pres today (queryF today m) ih p a _ _ _) (equivE_refl _)

/-- The boolean outcome of body evaluation depends only on facts and rules,
not on the accumulated trace. -/
lemma evalBodyWith_det (today : Date)
    (qf : Engine → String → List Term → Engine × Option (List Bindings))
    (hqp : ∀ e p a, EquivE (qf e p a).1 e)
    (hqd : ∀ e e' p a, EquivE e e' → (qf e p a).2 = (qf e' p a).2) :
    ∀ (body : List (String × List Term)) (e e' : Engine) (bnd : Bindings),
      EquivE e e' →
      (evalBodyWith today qf e body bnd).2 = (evalBodyWith today qf e' body bnd).2 := by
  intro body
  induction body with
  | nil => intro e e' bnd h; rfl
  | cons c rest ih =>
    intro e e' bnd h
    obtain ⟨pred, args⟩ := c
    simp only [evalBodyWith]
    by_cases h1 : pred = "age_less_than"
    · simp only [if_pos h1]
      generalize args.map (substArg bnd) = sa
      rcases sa with _ | ⟨t1, _ | ⟨t2, _ | ⟨t3, ts⟩⟩⟩
      · simp
      · simp
      · rw [h.1]
        cases hc : ageLessThanCall e'.facts today t1 t2 with
        | none => simp [hc]
        | some bv =>
          cases bv
          · simp [hc]
          · simpa [hc] using ih e e' bnd h
      · simp
    · simp only [if_neg h1]
      by_cases h2 : pred = "income_less_than"
      · simp only [if_pos h2]
        generalize args.map (substArg bnd) = sa
        rcases sa with _ | ⟨t1, _ | ⟨t2, _ | ⟨t3, ts⟩⟩⟩
        · simp
        · simp
        · rw [h.1]
          cases hc : incomeLessThanCall e'.facts t1 t2 with
          | none => simp [hc]
          | some bv =>
            cases bv
            · simp [hc]
            · simpa [hc] using ih e e' bnd h
        · simp
      · simp only [if_neg h2]
        by_cases h3 : pred = "has_child_under_18"
        · simp only [if_pos h3]
          generalize args.map (substArg bnd) = sa
          rcases sa with _ | ⟨t1, ts⟩
          · simp
          · rw [h.1]
            cases hc : hasChildUnder18Call e'.facts today t1 with
            | none => simp [hc]
            | some bv =>
              cases bv
              · simp [hc]
              · simpa [hc] using ih e e' bnd h
        · simp only [if_neg h3]
          have hv := hqd e e' pred (args.map (substArg bnd)) h
          cases hq1 : qf e pred (args.map (substArg bnd)) with
          | mk e2 r1 =>
            cases hq2 : qf e' pred (args.map (substArg bnd)) with
            | mk e2' r2 =>
              rw [hq1, hq2] at hv
              simp only at hv
              subst hv
              cases r1 with
              | none => rfl
              | some rs =>
                by_cases hrs : rs = []
                · simp [hrs]
                · simp only [if_neg hrs]
                  have h21 : EquivE e2 e := by
                    have hp := hqp e pred (args.map (substArg bnd))
                    rw [hq1] at hp
                    exact hp
                  have h22 : EquivE e2' e' := by
                    have hp := hqp e' pred (args.map (substArg bnd))
                    rw [hq2] at hp
                    exact hp
                  exact ih e2 e2' bnd
                    (equivE_trans h21 (equivE_trans h (equivE_symm h22)))

/-- The rule-loop results depend only on facts and rules, not on the trace. -/
lemma ruleLoopWith_det (today : Date)
    (qf : Engine → String → List Term → Engine × Option (List Bindings))
    (hqp : ∀ e p a, EquivE (qf e p a).1 e)
    (hqd : ∀ e e' p a, EquivE e e' → (qf e p a).2 = (qf e' p a).2)
    (pred : String) (args : List Term) :
    ∀ (rs : List Rule) (e e' : Engine) (acc : List Bindings), EquivE e e' →
      (ruleLoopWith today qf pred args e rs acc).2
        = (ruleLoopWith today qf pred args e' rs acc).2 := by
  intro rs
  induction rs with
  | nil => intro e e' acc h; rfl
  | cons r rest ih =>
    intro e e' acc h
    simp only [ruleLoopWith]
    by_cases h1 : r.headPred = pred
    · simp only [if_pos h1]
      cases hu : tryUnify args r.headArgs with
      | none => exact ih e e' acc h
      | some bnd =>
        have hv := evalBodyWith_det today qf hqp hqd r.body e e' bnd h
        cases hb1 : evalBodyWith today qf e r.body bnd with
        | mk e2 ob =>
          cases hb2 : evalBodyWith today qf e' r.body bnd with
          | mk e2' ob2 =>
            rw [hb1, hb2] at hv
            simp only at hv
            subst hv
            have h21 : EquivE e2 e := by
              have hp := evalBodyWith_pres today qf hqp r.body e bnd
              rw [hb1] at hp; exact hp
            have h22 : EquivE e2' e' := by
              have hp := evalBodyWith_pres today qf hqp r.body e' bnd
              rw [hb2] at hp; exact hp
            have h2 : EquivE e2 e2' :=
              equivE_trans h21 (equivE_trans h (equivE_symm h22))
            cases ob with
            | none => simp [hb1, hb2]
            | some bv =>
              cases bv
              · simpa [hb1, hb2] using ih e2 e2' acc h2
              · simpa [hb1, hb2] using ih e2 e2' (acc ++ [bnd]) h2
    · simp only [if_neg h1]
      exact ih e e' acc h

/-- The results of `PrologEngine.query` depend only on facts and rules. -/
lemma queryF_det (today : Date) :
    ∀ (n : Nat) (e e' : Engine) (p : String) (a : List Term), EquivE e e' →
      (queryF today n e p a).2 = (queryF today n e' p a).2 := by
  intro n
  induction n with
  | zero => intro e e' p a h; rfl
  | succ m ih =>
    intro e e' p a h
    simp only [queryF]
    rw [← h.1, ← h.2]
    exact ruleLoopWith_det today (queryF today m)
      (fun e0 p0 a0 => queryF_pres today m e0 p0 a0)
      (fun e0 e0' p0 a0 h0 => ih e0 e0' p0 a0 h0) p a _ _ _ _ ⟨rfl, rfl⟩

/-- **C9**: `query` (including recursive body evaluation) never mutates the
fact store or the rule base — only the execution trace grows — and therefore
a second identical call against the resulting engine state returns exactly
the same ordered result list. -/
theorem c9_requery_deterministic (today : Date) (n : Nat) (e : Engine)
    (p : String) (a : List Term) :
    (queryF today n e p a).1.facts = e.facts
    ∧ (queryF today n e p a).1.rules = e.rules
    ∧ (queryF today n (queryF today n e p a).1 p a).2 = (queryF today n e p a).2 := by
  refine ⟨(queryF_pres today n e p a).1, (queryF_pres today n e p a).2, ?_⟩
  exact queryF_det today n _ e p a (queryF_pres today n e p a)

/-! ### The shape of `query` results: fact matches first, then rule matches -/

lemma factMatches_eq_filterMap (args : List Term) :
    ∀ (l : List (List Term)) (acc : List Bindings),
      factMatches args l acc = acc ++ l.filterMap (fun t => tryUnify args t) := by
  intro l
  induction l with
  | nil => intro acc; simp [factMatches]
  | cons t ts ih =>
    intro acc
    simp only [factMatches]
    cases h : tryUnify args t with
    | some b =>
      show factMatches args ts (acc ++ [b]) = _
      rw [ih (acc ++ [b]), List.filterMap_cons_some h]
      simp [List.append_assoc]
    | none =>
      show factMatches args ts acc = _
      rw [ih acc, List.filterMap_cons_none h]

/-- The outcome of one rule-body evaluation as a function of the fact store
and the rule base alone (body evaluation only appends to the trace, so this
value is the outcome in any engine state carrying these facts and rules). -/
def bodyHoldsPure (today : Date) (n : Nat) (fs : Facts) (rls : List Rule)
    (body : List (String × List Term)) (bnd : Bindings) : Option Bool :=
  (evalBodyWith today (queryF today n) ⟨fs, rls, []⟩ body bnd).2

/-- The contribution of one rule to a `query` call: its head bindings, if
the head predicate matches, the head unifies, and the body holds. -/
def ruleMatch (today : Date) (n : Nat) (fs : Facts) (rls : List Rule)
    (pred : String) (args : List Term) (r : Rule) : Option Bindings :=
  if r.headPred = pred then
    match tryUnify args r.headArgs with
    | some b => if bodyHoldsPure today n fs rls r.body b = some true then some b else none
    | none => none
  else none

lemma ruleLoopWith_spec (today : Date) (n : Nat) (fs : Facts) (rls : List Rule)
    (pred : String) (args : List Term) :
    ∀ (rrs : List Rule) (e : Engine) (acc L : List Bindings),
      e.facts = fs → e.rules = rls →
      (ruleLoopWith today (queryF today n) pred args e rrs acc).2 = some L →
      L = acc ++ rrs.filterMap (ruleMatch today n fs rls pred args) := by
  intro rrs
  induction rrs with
  | nil =>
    intro e acc L _ _ hL
    simp only [ruleLoopWith] at hL
    cases hL
    simp
  | cons r rest ih =>
    intro e acc L hef her hL
    simp only [ruleLoopWith] at hL
    by_cases h1 : r.headPred = pred
    · rw [if_pos h1] at hL
      cases hu : tryUnify args r.headArgs with
      | none =>
        rw [hu] at hL
        simp only at hL
        rw [ih e acc L hef her hL]
        simp [List.filterMap_cons, ruleMatch, h1, hu]
      | some bnd =>
        rw [hu] at hL
        simp only at hL
        cases hb : evalBodyWith today (queryF today n) e r.body bnd with
        | mk e2 ob =>
          have hob : ob = bodyHoldsPure today n fs rls r.body bnd := by
            have hd := evalBodyWith_det today (queryF today n)
              (fun e0 p0 a0 => queryF_pres today n e0 p0 a0)
              (fun e0 e0' p0 a0 h0 => queryF_det today n e0 e0' p0 a0 h0)
              r.body e ⟨fs, rls, []⟩ bnd ⟨hef, her⟩
            rw [hb] at hd
            exact hd
          have h2 : EquivE e2 e := by
            have hp := evalBodyWith_pres today (queryF today n)
              (fun e0 p0 a0 => queryF_pres today n e0 p0 a0) r.body e bnd
            rw [hb] at hp
            exact hp
          rw [hb] at hL
          cases ob with
          | none => simp only at hL; cases hL
          | some bv =>
            cases bv
            · simp only at hL
              rw [ih e2 acc L (h2.1.trans hef) (h2.2.trans her) hL]
              simp [List.filterMap_cons, ruleMatch, h1, hu, hob.symm]
            · simp only at hL
              rw [ih e2 (acc ++ [bnd]) L (h2.1.trans hef) (h2.2.trans her) hL]
              simp [List.filterMap_cons, ruleMatch, h1, hu, hob.symm]
    · rw [if_neg h1] at hL
      rw [ih e acc L hef her hL]
      simp [List.filterMap_cons, ruleMatch, h1]

/-- **C5**: when `query(predicate, args)` returns (with enough fuel for its
recursive body evaluations), the result list consists of one bindings entry
per stored fact under the predicate that unifies with the arguments, in
fact-insertion order with no early exit, followed by one entry per rule (in
rule-insertion order) whose head predicate matches, whose head unifies, and
whose body evaluation succeeds; fact results precede all rule results. -/
theorem c5_query_order (today : Date) (n : Nat) (e : Engine) (pred : String)
    (args : List Term) (L : List Bindings)
    (h : (queryF today (n + 1) e pred args).2 = some L) :
    L = (factsFor e.facts pred).filterMap (fun t => tryUnify args t)
        ++ e.rules.filterMap (ruleMatch today n e.facts e.rules pred args) := by
  simp only [queryF] at h
  have := ruleLoopWith_spec today n e.facts e.rules pred args e.rules
    { e with trace := e.trace ++ ["Query: " ++ callStr pred args] }
    (factMatches args (factsFor e.facts pred) []) L rfl rfl h
  rw [this, factMatches_eq_filterMap]
  simp

/-- **C5** witness: a knowledge base with two matching `person` facts and one
empty-bodied rule; both facts contribute (no early exit) and the rule result
comes last. -/
theorem c5_witness :
    ([[("_q", Term.str "a")], [("_q", Term.str "b")], [("_x", Term.str "_q")]] : List Bindings)
      = (factsFor ([("person", [[Term.str "a"], [Term.str "b"]])] : Facts) "person").filterMap
          (fun t => tryUnify [Term.str "_q"] t)
        ++ ([⟨"person", [Term.str "_x"], []⟩] : List Rule).filterMap
            (ruleMatch ⟨2024, 1, 1⟩ 5
              ([("person", [[Term.str "a"], [Term.str "b"]])] : Facts)
              ([⟨"person", [Term.str "_x"], []⟩] : List Rule) "person" [Term.str "_q"]) := by
  have h := c5_query_order ⟨2024, 1, 1⟩ 5
    ⟨[("person", [[Term.str "a"], [Term.str "b"]])], [⟨"person", [Term.str "_x"], []⟩], []⟩
    "person" [Term.str "_q"]
    [[("_q", Term.str "a")], [("_q", Term.str "b")], [("_x", Term.str "_q")]] (by decide)
  exact h

/-! ### The built-in predicates -/

lemma findWithHead_mem {p : Term} :
    ∀ {l : List (List Term)} {t : List Term},
      findWithHead p l = some (some t) → t ∈ l := by
  intro l
  induction l with
  | nil => intro t h; simp [findWithHead] at h
  | cons u us ih =>
    intro t h
    cases u with
    | nil => simp [findWithHead] at h
    | cons a r =>
      simp only [findWithHead] at h
      by_cases ha : a = p
      · rw [if_pos ha] at h
        cases h
        exact List.mem_cons_self _ _
      · rw [if_neg ha] at h
        exact List.mem_cons_of_mem _ (ih h)

lemma findWithHead_append_first (p : Term) (v : List Term) :
    ∀ (pre post : List (List Term)),
      (∀ t ∈ pre, ∃ a r, t = a :: r ∧ ¬ a = p) →
      findWithHead p (pre ++ (p :: v) :: post) = some (some (p :: v)) := by
  intro pre
  induction pre with
  | nil => intro post _; simp [findWithHead]
  | cons u us ih =>
    intro post hpre
    obtain ⟨a, r, hu, hap⟩ := hpre u (by simp)
    subst hu
    simp only [List.cons_append, findWithHead, if_neg hap]
    exact ih post (fun t ht => hpre t (by simp [ht]))

/-- **C6**: `_calculate_age` returns `0` when no `birthdate` fact has the
person as its first element; otherwise the first such fact `(p, Y, M, D)`
gives `currentYear - Y`, minus one exactly when `(month, day)` is
lexicographically before `(M, D)`; at a current date of exactly
`(Y + 18, M, D)` the age is `18`, and one day earlier (either the same year
before the birthday, or December of year `Y + 17`) it is `17`. -/
theorem c6_calculate_age :
    (∀ (fs : Facts) (today : Date) (p : Term),
      findWithHead p (factsFor fs "birthdate") = some none →
      calculateAge fs today p = some 0)
    ∧ (∀ (fs : Facts) (p : Term) (Y M D : Int) (r : List Term),
        findWithHead p (factsFor fs "birthdate")
          = some (some (p :: Term.int Y :: Term.int M :: Term.int D :: r)) →
        (∀ cy cm cd : Int, calculateAge fs ⟨cy, cm, cd⟩ p
            = some (if cm < M ∨ (cm = M ∧ cd < D) then cy - Y - 1 else cy - Y))
        ∧ calculateAge fs ⟨Y + 18, M, D⟩ p = some 18
        ∧ (∀ cy cm cd : Int,
            (cy = Y + 18 ∧ (cm < M ∨ (cm = M ∧ cd < D)))
            ∨ (cy = Y + 17 ∧ ¬ (cm < M ∨ (cm = M ∧ cd < D))) →
            calculateAge fs ⟨cy, cm, cd⟩ p = some 17)) := by
  constructor
  · intro fs today p h
    simp [calculateAge, h]
  · intro fs p Y M D r h
    have hgen : ∀ cy cm cd : Int, calculateAge fs ⟨cy, cm, cd⟩ p
        = some (if cm < M ∨ (cm = M ∧ cd < D) then cy - Y - 1 else cy - Y) := by
      intro cy cm cd
      simp [calculateAge, h]
    refine ⟨hgen, ?_, ?_⟩
    · rw [hgen (Y + 18) M D, if_neg (by omega)]
      norm_num
    · rintro cy cm cd (⟨hcy, hlt⟩ | ⟨hcy, hlt⟩)
      · rw [hgen cy cm cd, if_pos hlt, hcy]
        norm_num
      · rw [hgen cy cm cd, if_neg hlt, hcy]
        norm_num

/-- **C6** witness: no birthdate fact gives age 0; with `birthdate
(p, 2000, 3, 15)`, the age on 2018-03-15 is 18 and on 2018-03-14 it is 17. -/
theorem c6_witness :
    calculateAge [("person", [[Term.str "bob"]])] ⟨2024, 6, 1⟩ (Term.str "bob") = some 0
    ∧ calculateAge [("birthdate", [[Term.str "p", Term.int 2000, Term.int 3, Term.int 15]])]
        ⟨2018, 3, 15⟩ (Term.str "p") = some 18
    ∧ calculateAge [("birthdate", [[Term.str "p", Term.int 2000, Term.int 3, Term.int 15]])]
        ⟨2018, 3, 14⟩ (Term.str "p") = some 17 := by
  refine ⟨c6_calculate_age.1 _ _ _ (by decide), ?_, ?_⟩
  · exact (c6_calculate_age.2 _ (Term.str "p") 2000 3 15 [] (by decide)).2.1
  · exact (c6_calculate_age.2 _ (Term.str "p") 2000 3 15 [] (by decide)).2.2 2018 3 14
      (Or.inl (by norm_num))

/-- The tuple shape `(person, integer income)` that the ACE fact parser
stores under `yearly_income`. -/
def incomeShape : List Term → Bool
  | [_, Term.int _] => true
  | _ => false

lemma incomeShape_iff {t : List Term} :
    incomeShape t = true ↔ ∃ a v, t = [a, Term.int v] := by
  constructor
  · intro h
    cases t with
    | nil => simp [incomeShape] at h
    | cons a r =>
      cases r with
      | nil => simp [incomeShape] at h
      | cons b s =>
        cases s with
        | cons c u => simp [incomeShape] at h
        | nil =>
          cases b with
          | str x => simp [incomeShape] at h
          | int v => exact ⟨a, v, rfl⟩
  · rintro ⟨a, v, rfl⟩; rfl

lemma findWithHead_ne_none_of_shapes {p : Term} :
    ∀ (l : List (List Term)), (∀ t ∈ l, incomeShape t = true) →
      findWithHead p l ≠ none := by
  intro l
  induction l with
  | nil => intro _ h; simp [findWithHead] at h
  | cons u us ih =>
    intro hl h
    obtain ⟨a, v, hu⟩ := incomeShape_iff.mp (hl u (by simp))
    subst hu
    simp only [findWithHead] at h
    by_cases hap : a = p
    · rw [if_pos hap] at h; cases h
    · rw [if_neg hap] at h
      exact ih (fun t ht => hl t (by simp [ht])) h

/-- **C7**: a body call `income_less_than(p, L)` fails as an ordinary body
failure — never a raised error — when no `yearly_income` fact has `p` as its
first element; otherwise it succeeds exactly when the income in the *first*
such fact is strictly below `L`, and the facts after the first are never
consulted (the conclusion holds for every continuation `post`). -/
theorem c7_income_first_fact (fs : Facts) (p : Term) (L : Int)
    (hwf : ∀ t ∈ factsFor fs "yearly_income", incomeShape t = true) :
    (findWithHead p (factsFor fs "yearly_income") = some none →
      incomeLessThanCall fs p (Term.int L) = some false)
    ∧ (∀ (pre post : List (List Term)) (v : Int),
        factsFor fs "yearly_income" = pre ++ ([p, Term.int v] :: post) →
        (∀ t ∈ pre, t.head? ≠ some p) →
        incomeLessThanCall fs p (Term.int L) = some (decide (v < L)))
    ∧ incomeLessThanCall fs p (Term.int L) ≠ none := by
  refine ⟨?_, ?_, ?_⟩
  · intro h
    simp [incomeLessThanCall, h]
  · intro pre post v hsplit hpre
    have hfind : findWithHead p (factsFor fs "yearly_income")
        = some (some [p, Term.int v]) := by
      rw [hsplit]
      exact findWithHead_append_first p [Term.int v] pre post (fun t ht => by
        obtain ⟨a, w, hw⟩ := incomeShape_iff.mp
          (hwf t (by rw [hsplit]; exact List.mem_append_left _ ht))
        refine ⟨a, [Term.int w], hw, fun hap => ?_⟩
        have h2 := hpre t ht
        rw [hw, hap] at h2
        simp at h2)
    have hv : decide (v < L) = ! decide (L ≤ v) := by
      by_cases hvl : v < L
      · have h2 : ¬ L ≤ v := by omega
        simp [hvl, h2]
      · have h2 : L ≤ v := by omega
        simp [hvl, h2]
    rw [show incomeLessThanCall fs p (Term.int L) = some (! decide (L ≤ v)) from by
      unfold incomeLessThanCall
      rw [hfind]
      rfl]
    rw [hv]
  · cases hfind : findWithHead p (factsFor fs "yearly_income") with
    | none => exact absurd hfind (findWithHead_ne_none_of_shapes _ hwf)
    | some o =>
      cases o with
      | none =>
        intro hnone
        rw [show incomeLessThanCall fs p (Term.int L) = some false from by
          unfold incomeLessThanCall
          rw [hfind]] at hnone
        cases hnone
      | some t =>
        obtain ⟨a, v, hav⟩ := incomeShape_iff.mp (hwf t (findWithHead_mem hfind))
        subst hav
        intro hnone
        rw [show incomeLessThanCall fs p (Term.int L) = some (! decide (L ≤ v)) from by
          unfold incomeLessThanCall
          rw [hfind]
          rfl] at hnone
        cases hnone

/-- **C7** witness: the theorem applied to a store whose `yearly_income`
list holds a non-matching entry, then two entries for `p` — the first (too
high) decides and the later low entry is never consulted. -/
theorem c7_witness :
    incomeLessThanCall
      [("yearly_income",
        [[Term.str "q", Term.int 10], [Term.str "p", Term.int 90000],
         [Term.str "p", Term.int 5]])]
      (Term.str "p") (Term.int 68000) = some (decide ((90000 : Int) < 68000))
    ∧ incomeLessThanCall [("yearly_income", [[Term.str "q", Term.int 10]])]
        (Term.str "z") (Term.int 68000) = some false
    ∧ incomeLessThanCall
        [("yearly_income",
          [[Term.str "q", Term.int 10], [Term.str "p", Term.int 90000],
           [Term.str "p", Term.int 5]])]
        (Term.str "p") (Term.int 68000) ≠ none := by
  refine ⟨?_, ?_, ?_⟩
  · exact (c7_income_first_fact _ _ 68000 (by decide)).2.1
      [[Term.str "q", Term.int 10]] [[Term.str "p", Term.int 5]] 90000
      (by decide) (by decide)
  · exact (c7_income_first_fact _ _ 68000 (by decide)).1 (by decide)
  · exact (c7_income_first_fact _ _ 68000 (by decide)).2.2

/-- The tuple shape `(parent, child)` that the ACE fact parser stores under
`has_child`. -/
def pairShape : List Term → Bool
  | [_, _] => true
  | _ => false

lemma pairShape_iff {t : List Term} :
    pairShape t = true ↔ ∃ a c, t = [a, c] := by
  constructor
  · intro h
    cases t with
    | nil => simp [pairShape] at h
    | cons a r =>
      cases r with
      | nil => simp [pairShape] at h
      | cons b s =>
        cases s with
        | cons c u => simp [pairShape] at h
        | nil => exact ⟨a, b, rfl⟩
  · rintro ⟨a, c, rfl⟩; rfl

/-- The tuple shape `(person, year, month, day, ...)` that allows
`_calculate_age` to complete without an exception. -/
def birthShape : List Term → Bool
  | _ :: Term.int _ :: Term.int _ :: Term.int _ :: _ => true
  | _ => false

lemma findWithHead_ne_none {p : Term} :
    ∀ (l : List (List Term)), (∀ t ∈ l, t ≠ []) → findWithHead p l ≠ none := by
  intro l
  induction l with
  | nil => intro _ h; simp [findWithHead] at h
  | cons u us ih =>
    intro hl h
    cases u with
    | nil => exact hl [] (by simp) rfl
    | cons a r =>
      simp only [findWithHead] at h
      by_cases hap : a = p
      · rw [if_pos hap] at h; cases h
      · rw [if_neg hap] at h
        exact ih (fun t ht => hl t (by simp [ht])) h

/-- With only well-shaped `birthdate` facts in the store, `_calculate_age`
never raises. -/
lemma calculateAge_ne_none (fs : Facts) (today : Date)
    (hbd : ∀ t ∈ factsFor fs "birthdate", birthShape t = true) :
    ∀ c, calculateAge fs today c ≠ none := by
  intro c
  unfold calculateAge
  cases hf : findWithHead c (factsFor fs "birthdate") with
  | none =>
    exact absurd hf (findWithHead_ne_none _ (fun t ht h0 => by
      have hs := hbd t ht
      rw [h0] at hs
      simp [birthShape] at hs))
  | some o =>
    cases o with
    | none => simp
    | some t =>
      have hs := hbd t (findWithHead_mem hf)
      cases t with
      | nil => simp [birthShape] at hs
      | cons q r =>
        match r, hs with
        | Term.int yy :: Term.int mm :: Term.int dd :: r2, _ => simp

lemma scanChildren_spec (fs : Facts) (today : Date) (p : Term) :
    ∀ (l : List (List Term)),
      (∀ t ∈ l, pairShape t = true) →
      (∀ a c, [a, c] ∈ l → a = p → calculateAge fs today c ≠ none) →
      ∃ b, scanChildren fs today p l = some b
        ∧ (b = true ↔ ∃ c, [p, c] ∈ l
            ∧ ∃ ag, calculateAge fs today c = some ag ∧ ag < 18) := by
  intro l
  induction l with
  | nil =>
    refine fun _ _ => ⟨false, rfl, ?_⟩
    simp
  | cons t ts ih =>
    intro hl hage
    obtain ⟨a, c, ht⟩ := pairShape_iff.mp (hl t (by simp))
    subst ht
    obtain ⟨b, hb, hiff⟩ := ih (fun u hu => hl u (by simp [hu]))
      (fun a0 c0 hm h0 => hage a0 c0 (by simp [hm]) h0)
    by_cases hap : a = p
    · subst hap
      cases hca : calculateAge fs today c with
      | none => exact absurd hca (hage a c (by simp) rfl)
      | some ag =>
        by_cases hlt : ag < 18
        · refine ⟨true, by simp [scanChildren, hca, hlt], ?_⟩
          constructor
          · intro _
            exact ⟨c, by simp, ag, hca, hlt⟩
          · intro _
            rfl
        · refine ⟨b, by simp [scanChildren, hca, hlt, hb], ?_⟩
          rw [hiff]
          constructor
          · rintro ⟨c0, hm, hrest⟩
            exact ⟨c0, by simp [hm], hrest⟩
          · rintro ⟨c0, hm, ag0, hag0, hlt0⟩
            rcases List.mem_cons.mp hm with heq | hm2
            · have hc0 : c0 = c := by
                simp only [List.cons.injEq] at heq
                exact heq.2.1
              subst hc0
              rw [hca] at hag0
              injection hag0 with h4
              omega
            · exact ⟨c0, hm2, ag0, hag0, hlt0⟩
    · refine ⟨b, by simp [scanChildren, hap, hb], ?_⟩
      rw [hiff]
      constructor
      · rintro ⟨c0, hm, hrest⟩
        exact ⟨c0, by simp [hm], hrest⟩
      · rintro ⟨c0, hm, hrest⟩
        rcases List.mem_cons.mp hm with heq | hm2
        · exfalso
          apply hap
          simp only [List.cons.injEq] at heq
          exact heq.1.symm
        · exact ⟨c0, hm2, hrest⟩

/-- **C8**: a body call `has_child_under_18(p)` succeeds exactly when some
`has_child` fact has `p` as its first element and that tuple's child has a
computed age strictly below 18; with no `has_child` facts at all it fails;
and its failure makes the enclosing rule body evaluation return failure
(`False`), not an error. -/
theorem c8_has_child_under_18 (fs : Facts) (today : Date) (p : Term)
    (hwf : ∀ t ∈ factsFor fs "has_child", pairShape t = true)
    (hbd : ∀ t ∈ factsFor fs "birthdate", birthShape t = true) :
    (∃ b, hasChildUnder18Call fs today p = some b
      ∧ (b = true ↔ ∃ c, [p, c] ∈ factsFor fs "has_child"
          ∧ ∃ ag, calculateAge fs today c = some ag ∧ ag < 18))
    ∧ (factsFor fs "has_child" = [] → hasChildUnder18Call fs today p = some false)
    ∧ (∀ (qf : Engine → String → List Term → Engine × Option (List Bindings))
        (e : Engine) (rest : List (String × List Term)) (bnd : Bindings)
        (args : List Term) (tl : List Term),
        e.facts = fs →
        args.map (substArg bnd) = p :: tl →
        hasChildUnder18Call fs today p = some false →
        evalBodyWith today qf e (("has_child_under_18", args) :: rest) bnd
          = (e, some false)) := by
  refine ⟨scanChildren_spec fs today p _ hwf
    (fun a c _ _ => calculateAge_ne_none fs today hbd c), ?_, ?_⟩
  · intro h
    rw [hasChildUnder18Call, h]
    rfl
  · intro qf e rest bnd args tl hef hargs hfail
    simp only [evalBodyWith, hargs]
    rw [if_neg (by decide), if_neg (by decide)]
    simp only [if_true]
    rw [hef, hfail]

/-- **C8** witness: a store where `p` has an adult child and a younger child
(the call succeeds), a store with no `has_child` facts (the call fails), and
the propagation of a failing call into a rule body. -/
theorem c8_witness :
    (∃ b, hasChildUnder18Call
        [("has_child", [[Term.str "p", Term.str "c1"], [Term.str "p", Term.str "c2"]]),
         ("birthdate",
          [[Term.str "c1", Term.int 1990, Term.int 1, Term.int 1],
           [Term.str "c2", Term.int 2015, Term.int 1, Term.int 1]])]
        ⟨2024, 6, 1⟩ (Term.str "p") = some b
      ∧ (b = true ↔ ∃ c, [Term.str "p", c] ∈ factsFor
            [("has_child", [[Term.str "p", Term.str "c1"], [Term.str "p", Term.str "c2"]]),
             ("birthdate",
              [[Term.str "c1", Term.int 1990, Term.int 1, Term.int 1],
               [Term.str "c2", Term.int 2015, Term.int 1, Term.int 1]])] "has_child"
          ∧ ∃ ag, calculateAge
              [("has_child", [[Term.str "p", Term.str "c1"], [Term.str "p", Term.str "c2"]]),
               ("birthdate",
                [[Term.str "c1", Term.int 1990, Term.int 1, Term.int 1],
                 [Term.str "c2", Term.int 2015, Term.int 1, Term.int 1]])]
              ⟨2024, 6, 1⟩ c = some ag ∧ ag < 18))
    ∧ hasChildUnder18Call [("person", [[Term.str "p"]])] ⟨2024, 6, 1⟩ (Term.str "p")
        = some false
    ∧ evalBodyWith ⟨2024, 6, 1⟩ (fun e _ _ => (e, some []))
        ⟨[("person", [[Term.str "p"]])], [], []⟩
        [("has_child_under_18", [Term.str "_person"]), ("person", [Term.str "_person"])]
        [("_person", Term.str "p")]
        = (⟨[("person", [[Term.str "p"]])], [], []⟩, some false) := by
  refine ⟨?_, ?_, ?_⟩
  · exact (c8_has_child_under_18 _ ⟨2024, 6, 1⟩ (Term.str "p")
      (by decide) (by decide)).1
  · exact (c8_has_child_under_18 [("person", [[Term.str "p"]])] ⟨2024, 6, 1⟩
      (Term.str "p") (by decide) (by decide)).2.1 (by decide)
  · exact (c8_has_child_under_18 [("person", [[Term.str "p"]])] ⟨2024, 6, 1⟩
      (Term.str "p") (by decide) (by decide)).2.2
      _ _ _ _ _ [] rfl (by decide) (by decide)

/-! ### Query shapes that `execute_query` does not dispatch -/

/-- The facts of the eligible scenario of the specification. -/
def mariaFactsText : String :=
  "maria is a person.\nmaria has a yearly_income of 45000 euros.\nmaria has tax_residence in Germany.\nmaria has child c1.\nc1 has a birthdate of 2015-01-01."

/-- When neither the `"is "` branch (with at least two tokens) nor the
`"who "` branch applies, `execute_query` performs no engine query and
returns the fallback answer with no result rows. -/
lemma executeQuery_no_branch (today : Date) (rulesText queryText factsText : String)
    (hfacts : (dropAround Char.isWhitespace factsText.toList).isEmpty = false)
    (hnoIs : ¬ (("is ".toList).isPrefixOf (normQuery queryText) = true
                ∧ 2 ≤ (splitWs (normQuery queryText)).length))
    (hnoWho : ("who ".toList).isPrefixOf (normQuery queryText) = false) :
    executeQuery today rulesText queryText factsText
      = some (EvalOutcome.ok
          ⟨[], fallbackMsg,
           (activateRules (loadFactsText emptyEngine factsText) rulesText).trace,
           sumFactsCount (activateRules (loadFactsText emptyEngine factsText) rulesText).facts,
           (activateRules (loadFactsText emptyEngine factsText) rulesText).rules.length⟩) := by
  simp only [executeQuery, hfacts, Bool.false_eq_true, if_false]
  rw [if_neg hnoIs, if_neg (by intro h; rw [hnoWho] at h; exact Bool.false_ne_true h)]
  simp

/-- **C2** (amended): `execute_query` has no `"what "` branch at all — every
query whose normalised text begins with `"what "` is unrecognised: it
performs no engine query and yields the fallback answer with an empty
result list, regardless of the facts, the rule set, the person, or the
`kindergeld_amount` keyword. -/
theorem c2_what_fallback (today : Date) (rulesText queryText factsText : String)
    (hfacts : (dropAround Char.isWhitespace factsText.toList).isEmpty = false)
    (hwhat : ∃ rest, normQuery queryText = 'w' :: 'h' :: 'a' :: 't' :: ' ' :: rest)
    (hka : hasSub (normQuery queryText) ("kindergeld_amount".toList) = true) :
    executeQuery today rulesText queryText factsText
      = some (EvalOutcome.ok
          ⟨[], fallbackMsg,
           (activateRules (loadFactsText emptyEngine factsText) rulesText).trace,
           sumFactsCount (activateRules (loadFactsText emptyEngine factsText) rulesText).facts,
           (activateRules (loadFactsText emptyEngine factsText) rulesText).rules.length⟩) := by
  obtain ⟨rest, hq⟩ := hwhat
  refine executeQuery_no_branch today rulesText queryText factsText hfacts ?_ ?_
  · rintro ⟨hpre, -⟩
    rw [hq] at hpre
    cases hpre
  · rw [hq]
    rfl

/-- **C2** counterexample: for the eligible person `maria` with one child,
the query `"What is the kindergeld_amount for maria?"` falls through to the
fallback answer with no result rows (no tiered amount is ever produced),
even though `maria` is eligible on the same knowledge base. -/
theorem c2_counterexample :
    outcomeAnswer (executeQuery ⟨2024, 6, 1⟩ "kindergeld"
        "What is the kindergeld_amount for maria?" mariaFactsText) = some fallbackMsg
    ∧ outcomeRows (executeQuery ⟨2024, 6, 1⟩ "kindergeld"
        "What is the kindergeld_amount for maria?" mariaFactsText) = some []
    ∧ outcomeAnswer (executeQuery ⟨2024, 6, 1⟩ "kindergeld"
        "Is maria eligible for Kindergeld?" mariaFactsText)
        = some "Yes, maria is eligible for Kindergeld." := by
  exact ⟨by decide, by decide, by decide⟩

/-- **C2** witness: the amended statement applied at a concrete query. -/
theorem c2_witness :
    executeQuery ⟨2024, 6, 1⟩ "tax_relief" "What is the kindergeld_amount for maria?"
        "maria is a person."
      = some (EvalOutcome.ok
          ⟨[], fallbackMsg,
           (activateRules (loadFactsText emptyEngine "maria is a person.") "tax_relief").trace,
           sumFactsCount
             (activateRules (loadFactsText emptyEngine "maria is a person.") "tax_relief").facts,
           (activateRules (loadFactsText emptyEngine "maria is a person.")
             "tax_relief").rules.length⟩) :=
  c2_what_fallback ⟨2024, 6, 1⟩ "tax_relief" "What is the kindergeld_amount for maria?"
    "maria is a person." (by decide)
    ⟨("is the kindergeld_amount for maria").toList, by decide⟩ (by decide)

/-- **C3** (amended): the `"is ... eligible ..."` branch of `execute_query`
dispatches only the `kindergeld` and `tax_relief` benefit keywords.  A query
that asks about eligibility for `student_support` (and does not contain the
other two keywords) is never dispatched to the `eligible_for_student_support`
query: the engine is not consulted (the trace stays that of the knowledge-base
setup) and the answer is the fallback message with an empty result list. -/
theorem c3_no_student_branch (today : Date) (rulesText queryText factsText : String)
    (hfacts : (dropAround Char.isWhitespace factsText.toList).isEmpty = false)
    (hIs : ("is ".toList).isPrefixOf (normQuery queryText) = true)
    (hlen : 2 ≤ (splitWs (normQuery queryText)).length)
    (helig : hasSub (normQuery queryText) ("eligible".toList) = true)
    (hss : hasSub (normQuery queryText) ("student_support".toList) = true)
    (hnk : hasSub (normQuery queryText) ("kindergeld".toList) = false)
    (hnt : hasSub (normQuery queryText) ("tax_relief".toList) = false) :
    executeQuery today rulesText queryText factsText
      = some (EvalOutcome.ok
          ⟨[], fallbackMsg,
           (activateRules (loadFactsText emptyEngine factsText) rulesText).trace,
           sumFactsCount (activateRules (loadFactsText emptyEngine factsText) rulesText).facts,
           (activateRules (loadFactsText emptyEngine factsText) rulesText).rules.length⟩) := by
  simp only [executeQuery, hfacts, Bool.false_eq_true, if_false]
  rw [if_pos ⟨hIs, hlen⟩]
  rw [show isBranch today (activateRules (loadFactsText emptyEngine factsText) rulesText)
        (normQuery queryText)
        (String.mk ((splitWs (normQuery queryText)).getD 1 []))
      = (activateRules (loadFactsText emptyEngine factsText) rulesText, some ([], "")) from by
    unfold isBranch
    rw [if_pos helig, if_neg (by simpa using hnk), if_neg (by simpa using hnt)]]
  simp

/-- **C3** counterexample: with the student-support rule set active and a
student `peter`, the query `"Is peter eligible for student_support?"` is not
dispatched: the answer is the fallback message with no result rows, not a
yes/no sentence about `peter` and `student_support`. -/
theorem c3_counterexample :
    outcomeAnswer (executeQuery ⟨2024, 6, 1⟩ "student_support"
        "Is peter eligible for student_support?" "peter is a student.") = some fallbackMsg
    ∧ outcomeRows (executeQuery ⟨2024, 6, 1⟩ "student_support"
        "Is peter eligible for student_support?" "peter is a student.") = some []
    ∧ (activateRules (loadFactsText emptyEngine "peter is a student.")
        "student_support").rules = [studentSupportRule] := by
  exact ⟨by decide, by decide, by decide⟩

/-- **C3** witness: the amended statement applied at a concrete query. -/
theorem c3_witness :
    executeQuery ⟨2024, 6, 1⟩ "student_support" "Is anna eligible for student_support?"
        "anna is a student."
      = some (EvalOutcome.ok
          ⟨[], fallbackMsg,
           (activateRules (loadFactsText emptyEngine "anna is a student.")
             "student_support").trace,
           sumFactsCount
             (activateRules (loadFactsText emptyEngine "anna is a student.")
               "student_support").facts,
           (activateRules (loadFactsText emptyEngine "anna is a student.")
             "student_support").rules.length⟩) :=
  c3_no_student_branch ⟨2024, 6, 1⟩ "student_support" "Is anna eligible for student_support?"
    "anna is a student." (by decide) (by decide) (by decide) (by decide) (by decide)
    (by decide) (by decide)

/-! ### The eligible scenario -/

lemma ruleLoopWith_no_match (today : Date)
    (qf : Engine → String → List Term → Engine × Option (List Bindings))
    (pred : String) (args : List Term) :
    ∀ (rs : List Rule) (e : Engine) (acc : List Bindings),
      (∀ r ∈ rs, ¬ r.headPred = pred) →
      ruleLoopWith today qf pred args e rs acc = (e, some acc) := by
  intro rs
  induction rs with
  | nil => intro e acc _; rfl
  | cons r rest ih =>
    intro e acc hno
    simp only [ruleLoopWith]
    rw [if_neg (hno r (by simp))]
    exact ih e acc (fun r2 h2 => hno r2 (by simp [h2]))

/-- A query on a predicate for which no rule head matches only collects the
fact matches. -/
lemma queryF_facts_only (today : Date) (n : Nat) (e : Engine) (pred : String)
    (args : List Term) (hno : ∀ r ∈ e.rules, ¬ r.headPred = pred) :
    queryF today (n + 1) e pred args
      = ({ e with trace := e.trace ++ ["Query: " ++ callStr pred args] },
         some (factMatches args (factsFor e.facts pred) [])) := by
  simp only [queryF]
  exact ruleLoopWith_no_match today (queryF today n) pred args e.rules _ _ hno

/-- Stepping over a non-built-in body call backed by facts only. -/
lemma evalBody_subquery_step (today : Date) (n : Nat) (e : Engine) (pred : String)
    (args : List Term) (rest : List (String × List Term)) (bnd : Bindings)
    (h1 : ¬ pred = "age_less_than") (h2 : ¬ pred = "income_less_than")
    (h3 : ¬ pred = "has_child_under_18")
    (hno : ∀ r ∈ e.rules, ¬ r.headPred = pred)
    (hne : ¬ factMatches (args.map (substArg bnd)) (factsFor e.facts pred) [] = []) :
    ∃ e2, evalBodyWith today (queryF today (n + 1)) e ((pred, args) :: rest) bnd
        = evalBodyWith today (queryF today (n + 1)) e2 rest bnd ∧ EquivE e2 e := by
  refine ⟨{ e with trace := e.trace
      ++ ["Query: " ++ callStr pred (args.map (substArg bnd))] }, ?_, ⟨rfl, rfl⟩⟩
  simp only [evalBodyWith]
  rw [if_neg h1, if_neg h2, if_neg h3]
  rw [queryF_facts_only today n e pred (args.map (substArg bnd)) hno]
  exact if_neg hne

/-- Stepping over a succeeding `income_less_than` body call. -/
lemma evalBody_income_step (today : Date)
    (qf : Engine → String → List Term → Engine × Option (List Bindings))
    (e : Engine) (args : List Term) (rest : List (String × List Term))
    (bnd : Bindings) (person lim : Term)
    (hsub : args.map (substArg bnd) = [person, lim])
    (hcall : incomeLessThanCall e.facts person lim = some true) :
    evalBodyWith today qf e (("income_less_than", args) :: rest) bnd
      = evalBodyWith today qf e rest bnd := by
  have h0 : evalBodyWith today qf e (("income_less_than", args) :: rest) bnd
      = (match incomeLessThanCall e.facts person lim with
         | none => (e, (none : Option Bool))
         | some false => (e, some false)
         | some true => evalBodyWith today qf e rest bnd) := by
    simp only [evalBodyWith, hsub]
    rfl
  rw [h0, hcall]

/-- Stepping over a succeeding `has_child_under_18` body call. -/
lemma evalBody_haschild_step (today : Date)
    (qf : Engine → String → List Term → Engine × Option (List Bindings))
    (e : Engine) (args : List Term) (rest : List (String × List Term))
    (bnd : Bindings) (person : Term) (tl : List Term)
    (hsub : args.map (substArg bnd) = person :: tl)
    (hcall : hasChildUnder18Call e.facts today person = some true) :
    evalBodyWith today qf e (("has_child_under_18", args) :: rest) bnd
      = evalBodyWith today qf e rest bnd := by
  have h0 : evalBodyWith today qf e (("has_child_under_18", args) :: rest) bnd
      = (match hasChildUnder18Call e.facts today person with
         | none => (e, (none : Option Bool))
         | some false => (e, some false)
         | some true => evalBodyWith today qf e rest bnd) := by
    simp only [evalBodyWith, hsub]
    rfl
  rw [h0, hcall]

/-- The fact store produced by parsing `mariaFactsText`. -/
def mariaFactsList : Facts :=
  [("person", [[Term.str "maria"]]),
   ("yearly_income", [[Term.str "maria", Term.int 45000]]),
   ("tax_residence", [[Term.str "maria", Term.str "germany"]]),
   ("has_child", [[Term.str "maria", Term.str "c1"]]),
   ("birthdate", [[Term.str "c1", Term.int 2015, Term.int 1, Term.int 1]])]

lemma loadFacts_maria :
    (loadFactsText emptyEngine mariaFactsText).facts = mariaFactsList := by decide

lemma loadFacts_maria_rules :
    (loadFactsText emptyEngine mariaFactsText).rules = [] := by decide

/-- Rule activation never touches the fact store. -/
lemma activateRules_facts (e : Engine) (rt : String) :
    (activateRules e rt).facts = e.facts := by
  simp only [activateRules, addRule]
  split_ifs <;> rfl

/-- The rule base after activation: each trigger appends its fixed rule. -/
lemma activateRules_rules (e : Engine) (rt : String) :
    (activateRules e rt).rules = e.rules
      ++ (if (hasSub (rt.toList.map Char.toLower) ("kindergeld".toList)
            || hasSub rt.toList ("If a person has children".toList)) = true
          then [kindergeldRule] else [])
      ++ (if (hasSub (rt.toList.map Char.toLower) ("tax_relief".toList)
            || hasSub (rt.toList.map Char.toLower) ("low_income_tax_relief".toList)) = true
          then [taxReliefRule] else [])
      ++ (if hasSub (rt.toList.map Char.toLower) ("student_support".toList) = true
          then [studentSupportRule] else []) := by
  simp only [activateRules, addRule]
  split_ifs <;> simp

/-- The kindergeld rule body holds for `maria` on the scenario facts,
whatever the trace and whatever further `eligible_for_*` rules are loaded,
as long as the evaluation date makes `c1` younger than 18. -/
lemma kg_body_holds (today : Date) (n : Nat) (e : Engine)
    (hf : e.facts = mariaFactsList)
    (hheads : ∀ r ∈ e.rules, r.headPred = "eligible_for_kindergeld"
        ∨ r.headPred = "eligible_for_low_income_tax_relief"
        ∨ r.headPred = "eligible_for_student_support")
    (hchild : hasChildUnder18Call mariaFactsList today (Term.str "maria") = some true) :
    ∃ e2, evalBodyWith today (queryF today (n + 1)) e kindergeldRule.body
        [("_person", Term.str "maria")] = (e2, some true) ∧ EquivE e2 e := by
  have hnoOf : ∀ (e0 : Engine), EquivE e0 e → ∀ (p : String),
      ¬ p = "eligible_for_kindergeld" →
      ¬ p = "eligible_for_low_income_tax_relief" →
      ¬ p = "eligible_for_student_support" →
      ∀ r ∈ e0.rules, ¬ r.headPred = p := by
    intro e0 he0 p hp1 hp2 hp3 r hr hcontra
    rcases hheads r (he0.2 ▸ hr) with h | h | h <;> rw [hcontra] at h
    · exact hp1 h
    · exact hp2 h
    · exact hp3 h
  rw [show kindergeldRule.body
      = [("person", [Term.str "_person"]),
         ("has_child", [Term.str "_person", Term.str "_child"]),
         ("income_less_than", [Term.str "_person", Term.int 68000]),
         ("has_child_under_18", [Term.str "_person"]),
         ("tax_residence", [Term.str "_person", Term.str "germany"])] from rfl]
  obtain ⟨eA, hA, hAe⟩ := evalBody_subquery_step today n e "person"
    [Term.str "_person"] _ [("_person", Term.str "maria")]
    (by decide) (by decide) (by decide)
    (hnoOf e (equivE_refl e) "person" (by decide) (by decide) (by decide))
    (by rw [hf]; decide)
  rw [hA]
  obtain ⟨eB, hB, hBe⟩ := evalBody_subquery_step today n eA "has_child"
    [Term.str "_person", Term.str "_child"] _ [("_person", Term.str "maria")]
    (by decide) (by decide) (by decide)
    (hnoOf eA hAe "has_child" (by decide) (by decide) (by decide))
    (by rw [hAe.1.trans hf]; decide)
  rw [hB]
  have hBf : eB.facts = mariaFactsList := hBe.1.trans (hAe.1.trans hf)
  rw [evalBody_income_step today (queryF today (n + 1)) eB
    [Term.str "_person", Term.int 68000] _
    [("_person", Term.str "maria")] (Term.str "maria") (Term.int 68000) rfl
    (by rw [hBf]; decide)]
  rw [evalBody_haschild_step today (queryF today (n + 1)) eB
    [Term.str "_person"] _
    [("_person", Term.str "maria")] (Term.str "maria") [] rfl
    (by rw [hBf]; exact hchild)]
  obtain ⟨eC, hC, hCe⟩ := evalBody_subquery_step today n eB "tax_residence"
    [Term.str "_person", Term.str "germany"] _ [("_person", Term.str "maria")]
    (by decide) (by decide) (by decide)
    (hnoOf eB (equivE_trans hBe hAe) "tax_residence" (by decide) (by decide) (by decide))
    (by rw [hBf]; decide)
  rw [hC]
  exact ⟨eC, rfl, equivE_trans hCe (equivE_trans hBe hAe)⟩

/-- One unfolding step of `queryF` at successor fuel. -/
lemma queryF_succ (today : Date) (m : Nat) (e : Engine) (p : String) (a : List Term) :
    queryF today (m + 1) e p a
      = ruleLoopWith today (queryF today m) p a
          { e with trace := e.trace ++ ["Query: " ++ callStr p a] }
          ({ e with trace := e.trace ++ ["Query: " ++ callStr p a] } : Engine).rules
          (factMatches a (factsFor ({ e with trace := e.trace
              ++ ["Query: " ++ callStr p a] } : Engine).facts p) []) := rfl

/-- On the scenario knowledge base, `query("eligible_for_kindergeld",
"maria")` returns exactly one bindings entry. -/
lemma kg_query_result (today : Date) (n : Nat) (e : Engine)
    (hf : e.facts = mariaFactsList)
    (hrules : ∃ R, e.rules = kindergeldRule :: R
        ∧ ∀ r ∈ R, r.headPred = "eligible_for_low_income_tax_relief"
            ∨ r.headPred = "eligible_for_student_support")
    (hchild : hasChildUnder18Call mariaFactsList today (Term.str "maria") = some true) :
    ∃ e2, queryF today (n + 2) e "eligible_for_kindergeld" [Term.str "maria"]
        = (e2, some [[("_person", Term.str "maria")]]) := by
  obtain ⟨R, hR, hRh⟩ := hrules
  rw [show n + 2 = (n + 1) + 1 from rfl]
  rw [queryF_succ today (n + 1) e "eligible_for_kindergeld" [Term.str "maria"]]
  have he1f : ({ e with trace := e.trace
      ++ ["Query: " ++ callStr "eligible_for_kindergeld" [Term.str "maria"]] } : Engine).facts
      = mariaFactsList := hf
  have he1r : ({ e with trace := e.trace
      ++ ["Query: " ++ callStr "eligible_for_kindergeld" [Term.str "maria"]] } : Engine).rules
      = kindergeldRule :: R := hR
  rw [he1f, he1r]
  simp only [ruleLoopWith]
  rw [if_pos (show kindergeldRule.headPred = "eligible_for_kindergeld" from rfl)]
  rw [show tryUnify [Term.str "maria"] kindergeldRule.headArgs
      = some [("_person", Term.str "maria")] from by decide]
  obtain ⟨e2, hbody, he2⟩ := kg_body_holds today n
    ⟨mariaFactsList, kindergeldRule :: R, e.trace
        ++ ["Query: " ++ callStr "eligible_for_kindergeld" [Term.str "maria"]]⟩
    rfl
    (fun r hr => by
      rcases List.mem_cons.mp hr with h | h
      · rw [h]; left; rfl
      · rcases hRh r h with h1 | h1
        · right; left; exact h1
        · right; right; exact h1)
    hchild
  simp only [hbody]
  rw [ruleLoopWith_no_match today (queryF today (n + 1)) "eligible_for_kindergeld"
    [Term.str "maria"] R e2 _
    (fun r hr hcontra => by
      rcases hRh r hr with h1 | h1 <;> rw [hcontra] at h1 <;> exact absurd h1 (by decide))]
  exact ⟨e2, rfl⟩

/-- **C1**: on the knowledge base built from the five scenario facts and any
rule-set text containing `"kindergeld"`, the query
`"Is maria eligible for Kindergeld?"` succeeds with the exact answer
`"Yes, maria is eligible for Kindergeld."` and exactly one result row
`{result: eligible, person: maria, benefit: Kindergeld}`, provided the
evaluation date makes `c1`'s computed age less than 18. -/
theorem c1_eligible_scenario (today : Date) (rulesText : String)
    (hkg : hasSub (rulesText.toList.map Char.toLower) ("kindergeld".toList) = true)
    (hage : ∃ a, calculateAge mariaFactsList today (Term.str "c1") = some a ∧ a < 18) :
    outcomeAnswer (executeQuery today rulesText "Is maria eligible for Kindergeld?"
        mariaFactsText) = some "Yes, maria is eligible for Kindergeld."
    ∧ outcomeRows (executeQuery today rulesText "Is maria eligible for Kindergeld?"
        mariaFactsText)
      = some [[("result", "eligible"), ("person", "maria"), ("benefit", "Kindergeld")]] := by
  obtain ⟨a, ha, hlt⟩ := hage
  have hchild : hasChildUnder18Call mariaFactsList today (Term.str "maria") = some true := by
    rw [show hasChildUnder18Call mariaFactsList today (Term.str "maria")
        = (match calculateAge mariaFactsList today (Term.str "c1") with
           | none => (none : Option Bool)
           | some x => if x < 18 then some true else some false) from rfl, ha]
    simp [hlt]
  have hOr : (hasSub (rulesText.toList.map Char.toLower) ("kindergeld".toList)
      || hasSub rulesText.toList ("If a person has children".toList)) = true := by
    rw [hkg]; rfl
  have hE := activateRules_rules (loadFactsText emptyEngine mariaFactsText) rulesText
  rw [loadFacts_maria_rules, hOr] at hE
  have hrules : ∃ R, (activateRules (loadFactsText emptyEngine mariaFactsText)
        rulesText).rules = kindergeldRule :: R
      ∧ ∀ r ∈ R, r.headPred = "eligible_for_low_income_tax_relief"
          ∨ r.headPred = "eligible_for_student_support" := by
    refine ⟨(if (hasSub (rulesText.toList.map Char.toLower) ("tax_relief".toList)
          || hasSub (rulesText.toList.map Char.toLower)
              ("low_income_tax_relief".toList)) = true
        then [taxReliefRule] else [])
      ++ (if hasSub (rulesText.toList.map Char.toLower) ("student_support".toList) = true
        then [studentSupportRule] else []), ?_, ?_⟩
    · rw [hE]; simp
    · intro r hr
      rcases List.mem_append.mp hr with h | h
      · split at h
        · simp at h; rw [h]; left; rfl
        · simp at h
      · split at h
        · simp at h; rw [h]; right; rfl
        · simp at h
  obtain ⟨e2, hq⟩ := kg_query_result today 998
    (activateRules (loadFactsText emptyEngine mariaFactsText) rulesText)
    ((activateRules_facts _ _).trans loadFacts_maria) hrules hchild
  have hguard : (("is ".toList).isPrefixOf
        (normQuery "Is maria eligible for Kindergeld?") = true
      ∧ 2 ≤ (splitWs (normQuery "Is maria eligible for Kindergeld?")).length) := by
    exact ⟨by decide, by decide⟩
  constructor
  all_goals
    simp only [executeQuery]
    rw [if_neg (show ¬ ((dropAround Char.isWhitespace mariaFactsText.toList).isEmpty
        = true) from by decide)]
    rw [if_pos hguard]
    simp only [isBranch]
    rw [if_pos (show hasSub (normQuery "Is maria eligible for Kindergeld?")
        ("eligible".toList) = true from by decide)]
    rw [if_pos (show hasSub (normQuery "Is maria eligible for Kindergeld?")
        ("kindergeld".toList) = true from by decide)]
    rw [show String.mk ((splitWs
        (normQuery "Is maria eligible for Kindergeld?")).getD 1 []) = "maria" from by decide]
    rw [show (QFUEL : Nat) = 998 + 2 from rfl]
    rw [hq]
    rfl

/-- **C1** witness: the theorem at the concrete evaluation date 2024-06-01,
at which `c1`'s computed age is 9. -/
theorem c1_witness :
    outcomeAnswer (executeQuery ⟨2024, 6, 1⟩ "kindergeld"
        "Is maria eligible for Kindergeld?" mariaFactsText)
      = some "Yes, maria is eligible for Kindergeld."
    ∧ outcomeRows (executeQuery ⟨2024, 6, 1⟩ "kindergeld"
        "Is maria eligible for Kindergeld?" mariaFactsText)
      = some [[("result", "eligible"), ("person", "maria"), ("benefit", "Kindergeld")]] :=
  c1_eligible_scenario ⟨2024, 6, 1⟩ "kindergeld" (by decide) ⟨9, by decide, by decide⟩

/-! ### Case sensitivity of the query interpreter -/

lemma hasSub_append_right (a b needle : List Char) (h : hasSub b needle = true) :
    hasSub (a ++ b) needle = true := by
  induction a with
  | nil => simpa using h
  | cons c cs ih =>
    simp only [List.cons_append, hasSub, List.append_eq]
    rw [ih]
    simp

lemma splitWsAux_word :
    ∀ (w : List Char), (∀ c ∈ w, c.isWhitespace = false) →
      ∀ (cur rest : List Char), ¬ cur ++ w = [] →
      splitWsAux cur (w ++ ' ' :: rest) = (cur ++ w) :: splitWsAux [] rest := by
  intro w
  induction w with
  | nil =>
    intro _ cur rest hne
    simp only [List.nil_append, List.append_nil] at hne ⊢
    simp only [splitWsAux]
    rw [if_pos (by decide)]
    rw [if_neg (by simpa [List.isEmpty_iff] using hne)]
  | cons c cs ih =>
    intro hw cur rest hne
    simp only [List.cons_append, splitWsAux, List.append_eq]
    rw [if_neg (by simp [hw c (by simp)])]
    rw [ih (fun x hx => hw x (by simp [hx])) (cur ++ [c]) rest (by simp)]
    simp

lemma factMatches_all_none (args : List Term) :
    ∀ (l : List (List Term)) (acc : List Bindings),
      (∀ t ∈ l, tryUnify args t = none) → factMatches args l acc = acc := by
  intro l
  induction l with
  | nil => intro acc _; rfl
  | cons t ts ih =>
    intro acc hl
    simp only [factMatches]
    rw [hl t (by simp)]
    exact ih acc (fun u hu => hl u (by simp [hu]))

lemma parseAceFact_rules (e : Engine) (l : String) :
    (parseAceFact e l).rules = e.rules := by
  unfold parseAceFact
  dsimp only
  split_ifs <;> (try rfl) <;> (split <;> rfl)

lemma loadFactsText_rules (txt : String) :
    (loadFactsText emptyEngine txt).rules = [] := by
  unfold loadFactsText
  have hgen : ∀ (ls : List (List Char)) (e : Engine),
      (ls.foldl (fun acc l => if l.isEmpty then acc
          else parseAceFact acc (String.mk l)) e).rules = e.rules := by
    intro ls
    induction ls with
    | nil => intro e; rfl
    | cons l rest ih =>
      intro e
      simp only [List.foldl_cons]
      rw [ih]
      split
      · rfl
      · exact parseAceFact_rules e (String.mk l)
  exact hgen _ emptyEngine

lemma activateRules_rules_cases (e : Engine) (rt : String) (he : e.rules = []) :
    ∀ r ∈ (activateRules e rt).rules,
      r = kindergeldRule ∨ r = taxReliefRule ∨ r = studentSupportRule := by
  intro r hr
  rw [activateRules_rules, he] at hr
  simp only [List.nil_append] at hr
  rcases List.mem_append.mp hr with h | h
  · rcases List.mem_append.mp h with h2 | h2
    · split at h2
      · simp at h2; left; exact h2
      · simp at h2
    · split at h2
      · simp at h2; right; left; exact h2
      · simp at h2
  · split at h
    · simp at h; right; right; exact h
    · simp at h

lemma toLower_ne_of_ascii_upper {c : Char} (h1 : 65 ≤ c.toNat) (h2 : c.toNat ≤ 90) :
    ¬ Char.toLower c = c := by
  intro hEq
  have hstep : Char.toLower c = Char.ofNat (c.toNat + 32) := by
    unfold Char.toLower
    exact if_pos ⟨h1, h2⟩
  rw [hstep] at hEq
  have hto := congrArg Char.toNat hEq
  obtain ⟨m, hm⟩ : ∃ m, c.toNat = m := ⟨_, rfl⟩
  rw [hm] at hto h1 h2
  interval_cases m <;> exact absurd hto (by decide)

lemma lowerStr_ne (id : String)
    (hup : ∃ c ∈ id.toList, 65 ≤ c.toNat ∧ c.toNat ≤ 90) :
    ¬ String.mk (id.toList.map Char.toLower) = id := by
  intro hEq
  obtain ⟨c, hc, h1, h2⟩ := hup
  have hdata : id.toList.map Char.toLower = id.toList := congrArg String.data hEq
  have : Char.toLower c = c := by
    have hmap : ∀ (l : List Char), l.map Char.toLower = l →
        ∀ x ∈ l, Char.toLower x = x := by
      intro l
      induction l with
      | nil => intro _ x hx; simp at hx
      | cons y ys ih =>
        intro hl x hx
        simp only [List.map_cons, List.cons.injEq] at hl
        rcases List.mem_cons.mp hx with h | h
        · rw [h]; exact hl.1
        · exact ih hl.2 x h
    exact hmap id.toList hdata c hc
  exact toLower_ne_of_ascii_upper h1 h2 this

/-- Stepping over a non-built-in body call with no matching fact and no
matching rule head: the call fails as an ordinary body failure. -/
lemma evalBody_subquery_fail (today : Date) (n : Nat) (e : Engine) (pred : String)
    (args : List Term) (rest : List (String × List Term)) (bnd : Bindings)
    (h1 : ¬ pred = "age_less_than") (h2 : ¬ pred = "income_less_than")
    (h3 : ¬ pred = "has_child_under_18")
    (hno : ∀ r ∈ e.rules, ¬ r.headPred = pred)
    (hempty : factMatches (args.map (substArg bnd)) (factsFor e.facts pred) [] = []) :
    ∃ e2, evalBodyWith today (queryF today (n + 1)) e ((pred, args) :: rest) bnd
        = (e2, some false) ∧ EquivE e2 e := by
  refine ⟨{ e with trace := e.trace
      ++ ["Query: " ++ callStr pred (args.map (substArg bnd))] }, ?_, ⟨rfl, rfl⟩⟩
  simp only [evalBodyWith]
  rw [if_neg h1, if_neg h2, if_neg h3]
  rw [queryF_facts_only today n e pred (args.map (substArg bnd)) hno]
  rw [hempty]
  rfl

/-- The rule loop of a `query("eligible_for_kindergeld", p)` on an activated
knowledge base whose `person` facts never unify with `p`: every activatable
rule either has the wrong head or fails at its first body call, so the
accumulator stays empty. -/
lemma ruleLoop_kg_empty (today : Date) (n : Nat) (lid : String) :
    ∀ (rs : List Rule) (e : Engine),
      (∀ r ∈ rs, r = kindergeldRule ∨ r = taxReliefRule ∨ r = studentSupportRule) →
      (∀ r ∈ e.rules, r = kindergeldRule ∨ r = taxReliefRule ∨ r = studentSupportRule) →
      (∀ t ∈ factsFor e.facts "person", tryUnify [Term.str lid] t = none) →
      ∃ e2, ruleLoopWith today (queryF today (n + 1)) "eligible_for_kindergeld"
          [Term.str lid] e rs [] = (e2, some []) ∧ EquivE e2 e := by
  intro rs
  induction rs with
  | nil => intro e _ _ _; exact ⟨e, rfl, equivE_refl e⟩
  | cons r rest ih =>
    intro e hrs he hper
    rcases hrs r (by simp) with hkg | htr | hss
    · subst hkg
      simp only [ruleLoopWith]
      rw [if_pos (show kindergeldRule.headPred = "eligible_for_kindergeld" from rfl)]
      rw [show tryUnify [Term.str lid] kindergeldRule.headArgs
          = some [("_person", Term.str lid)] from rfl]
      have hnoP : ∀ r2 ∈ e.rules, ¬ r2.headPred = "person" := by
        intro r2 hr2 hco
        rcases he r2 hr2 with h | h | h <;> rw [h] at hco <;> exact absurd hco (by decide)
      have hempty : factMatches ([Term.str "_person"].map
            (substArg [("_person", Term.str lid)])) (factsFor e.facts "person") [] = [] := by
        rw [show [Term.str "_person"].map (substArg [("_person", Term.str lid)])
            = [Term.str lid] from rfl]
        exact factMatches_all_none _ _ _ hper
      obtain ⟨e2, hbody, he2⟩ := evalBody_subquery_fail today n e "person"
        [Term.str "_person"]
        [("has_child", [Term.str "_person", Term.str "_child"]),
         ("income_less_than", [Term.str "_person", Term.int 68000]),
         ("has_child_under_18", [Term.str "_person"]),
         ("tax_residence", [Term.str "_person", Term.str "germany"])]
        [("_person", Term.str lid)]
        (by decide) (by decide) (by decide) hnoP hempty
      rw [show kindergeldRule.body = ("person", [Term.str "_person"])
          :: [("has_child", [Term.str "_person", Term.str "_child"]),
              ("income_less_than", [Term.str "_person", Term.int 68000]),
              ("has_child_under_18", [Term.str "_person"]),
              ("tax_residence", [Term.str "_person", Term.str "germany"])] from rfl]
      simp only [hbody]
      obtain ⟨e3, h3, he3⟩ := ih e2
        (fun r2 hr2 => hrs r2 (by simp [hr2]))
        (fun r2 hr2 => he r2 (he2.2 ▸ hr2))
        (fun t ht => hper t (he2.1 ▸ ht))
      exact ⟨e3, h3, equivE_trans he3 he2⟩
    · subst htr
      simp only [ruleLoopWith]
      rw [if_neg (show ¬ taxReliefRule.headPred = "eligible_for_kindergeld" by decide)]
      exact ih e (fun r2 hr2 => hrs r2 (by simp [hr2])) he hper
    · subst hss
      simp only [ruleLoopWith]
      rw [if_neg (show ¬ studentSupportRule.headPred = "eligible_for_kindergeld" by decide)]
      exact ih e (fun r2 hr2 => hrs r2 (by simp [hr2])) he hper

/-- `query("eligible_for_kindergeld", p)` returns the empty result list when
neither a stored `eligible_for_kindergeld` fact nor a stored `person` fact
unifies with `p`, on a knowledge base holding only activatable rules. -/
lemma kg_query_empty (today : Date) (n : Nat) (e : Engine) (lid : String)
    (hheads : ∀ r ∈ e.rules, r = kindergeldRule ∨ r = taxReliefRule ∨ r = studentSupportRule)
    (hper : ∀ t ∈ factsFor e.facts "person", tryUnify [Term.str lid] t = none)
    (hkgf : ∀ t ∈ factsFor e.facts "eligible_for_kindergeld",
        tryUnify [Term.str lid] t = none) :
    ∃ e2, queryF today (n + 2) e "eligible_for_kindergeld" [Term.str lid]
        = (e2, some []) := by
  rw [show n + 2 = (n + 1) + 1 from rfl]
  rw [queryF_succ today (n + 1) e "eligible_for_kindergeld" [Term.str lid]]
  rw [show factMatches [Term.str lid] (factsFor ({ e with trace := e.trace
        ++ ["Query: " ++ callStr "eligible_for_kindergeld" [Term.str lid]] } : Engine).facts
        "eligible_for_kindergeld") []
      = [] from factMatches_all_none _ _ _ hkgf]
  obtain ⟨e2, h2, _⟩ := ruleLoop_kg_empty today n lid
    ({ e with trace := e.trace
        ++ ["Query: " ++ callStr "eligible_for_kindergeld" [Term.str lid]] } : Engine).rules
    ({ e with trace := e.trace
        ++ ["Query: " ++ callStr "eligible_for_kindergeld" [Term.str lid]] } : Engine)
    hheads hheads hper
  exact ⟨e2, h2⟩

/-- **C10** (amended): when the question names a person with its original
(partly upper-case) spelling, the interpreter lower-cases the whole query,
extracts the lower-cased token, and — whenever neither the stored `person`
facts nor stored `eligible_for_kindergeld` facts unify with that lower-cased
atom — answers negatively; the extracted token really differs from the
spelled identifier. -/
theorem c10_lowercased_person_token (today : Date)
    (rulesText queryText factsText id : String)
    (hfacts : (dropAround Char.isWhitespace factsText.toList).isEmpty = false)
    (hq : normQuery queryText
      = "is ".toList ++ (id.toList.map Char.toLower
          ++ " eligible for kindergeld".toList))
    (hnws : ∀ c ∈ id.toList.map Char.toLower, c.isWhitespace = false)
    (hne : ¬ id.toList.map Char.toLower = [])
    (hup : ∃ c ∈ id.toList, 65 ≤ c.toNat ∧ c.toNat ≤ 90)
    (hper : ∀ t ∈ factsFor (activateRules (loadFactsText emptyEngine factsText)
        rulesText).facts "person",
      tryUnify [Term.str (String.mk (id.toList.map Char.toLower))] t = none)
    (hkgf : ∀ t ∈ factsFor (activateRules (loadFactsText emptyEngine factsText)
        rulesText).facts "eligible_for_kindergeld",
      tryUnify [Term.str (String.mk (id.toList.map Char.toLower))] t = none) :
    ¬ String.mk (id.toList.map Char.toLower) = id
    ∧ outcomeAnswer (executeQuery today rulesText queryText factsText)
        = some ("No, " ++ String.mk (id.toList.map Char.toLower)
            ++ " is not eligible for Kindergeld.")
    ∧ outcomeRows (executeQuery today rulesText queryText factsText) = some [] := by
  have hsplit0 : splitWs (normQuery queryText)
      = ['i', 's'] :: splitWsAux [] (id.toList.map Char.toLower
          ++ (' ' :: "eligible for kindergeld".toList)) := by
    rw [show splitWs (normQuery queryText) = splitWsAux [] (normQuery queryText) from rfl]
    rw [hq]
    rfl
  have hsplit : splitWs (normQuery queryText)
      = ['i', 's'] :: (id.toList.map Char.toLower)
          :: splitWsAux [] ("eligible for kindergeld".toList) := by
    rw [hsplit0, splitWsAux_word (id.toList.map Char.toLower) hnws []
      ("eligible for kindergeld".toList) (by simpa using hne)]
    simp
  have hguard : ("is ".toList).isPrefixOf (normQuery queryText) = true
      ∧ 2 ≤ (splitWs (normQuery queryText)).length := by
    constructor
    · rw [hq]
      exact List.isPrefixOf_iff_prefix.mpr (List.prefix_append _ _)
    · rw [hsplit]
      simp
  have hperEq : String.mk ((splitWs (normQuery queryText)).getD 1 [])
      = String.mk (id.toList.map Char.toLower) := by
    rw [hsplit]
    rfl
  have hassoc : normQuery queryText
      = ("is ".toList ++ id.toList.map Char.toLower)
          ++ " eligible for kindergeld".toList := by
    rw [hq, List.append_assoc]
  have hql1 : hasSub (normQuery queryText) ("eligible".toList) = true := by
    rw [hassoc]
    exact hasSub_append_right _ _ _ (by decide)
  have hql2 : hasSub (normQuery queryText) ("kindergeld".toList) = true := by
    rw [hassoc]
    exact hasSub_append_right _ _ _ (by decide)
  have hheads := activateRules_rules_cases (loadFactsText emptyEngine factsText)
    rulesText (loadFactsText_rules factsText)
  obtain ⟨e2, hq2⟩ := kg_query_empty today 998
    (activateRules (loadFactsText emptyEngine factsText) rulesText)
    (String.mk (id.toList.map Char.toLower)) hheads hper hkgf
  have hansne : ¬ ("No, " ++ String.mk (id.toList.map Char.toLower)
      ++ " is not eligible for Kindergeld.") = "" := by
    intro h
    have h2 := congrArg String.length h
    rw [String.length_append, String.length_append] at h2
    rw [show ("No, " : String).length = 4 from rfl] at h2
    rw [show (" is not eligible for Kindergeld." : String).length = 32 from rfl] at h2
    rw [show ("" : String).length = 0 from rfl] at h2
    omega
  have hexec : executeQuery today rulesText queryText factsText
      = some (EvalOutcome.ok ⟨[],
          if ("No, " ++ String.mk (id.toList.map Char.toLower)
              ++ " is not eligible for Kindergeld.") = "" then fallbackMsg
          else "No, " ++ String.mk (id.toList.map Char.toLower)
              ++ " is not eligible for Kindergeld.",
          e2.trace, sumFactsCount e2.facts, e2.rules.length⟩) := by
    simp only [executeQuery]
    rw [if_neg (show ¬ (dropAround Char.isWhitespace factsText.toList).isEmpty = true
        from by rw [hfacts]; exact Bool.false_ne_true)]
    rw [if_pos hguard]
    rw [hperEq]
    simp only [isBranch]
    rw [if_pos hql1, if_pos hql2]
    rw [show (QFUEL : Nat) = 998 + 2 from rfl]
    rw [hq2]
    rfl
  refine ⟨lowerStr_ne id hup, ?_, ?_⟩
  · rw [hexec]
    show some (if ("No, " ++ String.mk (id.toList.map Char.toLower)
        ++ " is not eligible for Kindergeld.") = "" then fallbackMsg
        else "No, " ++ String.mk (id.toList.map Char.toLower)
            ++ " is not eligible for Kindergeld.") = _
    rw [if_neg hansne]
  · rw [hexec]
    rfl

/-- **C10** counterexample to the original universal claim: a facts text that
declares `Maria is a person.` (upper-case identifier) may, through its other
facts, also declare the lower-cased atom, and then the query
`Is Maria eligible for Kindergeld?` yields the positive answer — so the
negative answer is not independent of the other facts. -/
theorem c10_counterexample :
    hasSub ("Maria is a person.\nmaria is a person.\nmaria has a yearly_income of 45000 euros.\nmaria has tax_residence in Germany.\nmaria has child c1.\nc1 has a birthdate of 2015-01-01.".toList)
        ("Maria is a person.".toList) = true
    ∧ outcomeAnswer (executeQuery ⟨2024, 6, 1⟩ "kindergeld"
        "Is Maria eligible for Kindergeld?"
        "Maria is a person.\nmaria is a person.\nmaria has a yearly_income of 45000 euros.\nmaria has tax_residence in Germany.\nmaria has child c1.\nc1 has a birthdate of 2015-01-01.")
      = some "Yes, maria is eligible for Kindergeld." := by
  constructor
  · decide
  · decide

/-- **C10** witness: the amended theorem at the identifier `Maria`, the facts
text `Maria is a person.` and the query `Is Maria eligible for Kindergeld?`:
the token is lower-cased to `maria`, which unifies with no stored fact, so
the answer is negative. -/
theorem c10_witness :
    ¬ String.mk (("Maria" : String).toList.map Char.toLower) = "Maria"
    ∧ outcomeAnswer (executeQuery ⟨2024, 6, 1⟩ "kindergeld"
        "Is Maria eligible for Kindergeld?" "Maria is a person.")
        = some ("No, " ++ String.mk (("Maria" : String).toList.map Char.toLower)
            ++ " is not eligible for Kindergeld.")
    ∧ outcomeRows (executeQuery ⟨2024, 6, 1⟩ "kindergeld"
        "Is Maria eligible for Kindergeld?" "Maria is a person.") = some [] :=
  c10_lowercased_person_token ⟨2024, 6, 1⟩ "kindergeld"
    "Is Maria eligible for Kindergeld?" "Maria is a person." "Maria"
    (by decide) (by decide) (by decide) (by decide)
    ⟨'M', by decide, by decide, by decide⟩ (by decide) (by decide)

end AceCode
